import Mathlib

/-!
Shallow embedding of the `rust-ray-tracer-challenge` kernel
(`src/tuple.rs`, `src/matrix/matrix{2,3,4}.rs`, `src/transform.rs`,
`src/draw/color.rs`, `src/draw/canvas.rs`).

`f64` values are modelled as exact rationals (`ℚ`); all the operations the
claims mention (construction, addition, multiplication, cofactor expansion,
division by the determinant, clamping, rounding) are field operations, so the
rational model computes exactly what the floating-point code computes up to
rounding of intermediate results, and the epsilon-comparison contract the
code itself uses is carried over literally.  The trigonometric calls
`rad.cos()` / `rad.sin()` in `transform.rs` are passed in as explicit
parameters `c` / `s`.

Fixed-bound `for` loops of the source are unrolled or expressed with the
matching index arithmetic; the `while` loops of `wrap_string` are expressed
with an explicit fuel argument that dominates their iteration count.
-/

/-- Modelled from the spec: the crate-root constant `EPSILON` used by every
approximate comparison.  The crate root that defines it is not among the
provided sources; the spec fixes it to `1e-5` (and the stale `lib.rs` in the
sources uses the literal `0.00001` for the same purpose). -/
def EPSILON : ℚ := 1 / 100000

/-! ### Tuple (`src/tuple.rs`) -/

/-- `struct Tuple { x, y, z, w: f64 }`. -/
structure Tuple where
  x : ℚ
  y : ℚ
  z : ℚ
  w : ℚ
deriving DecidableEq

namespace Tuple

/-- `Tuple::new(x, y, z, w)`. -/
def new (x y z w : ℚ) : Tuple := ⟨x, y, z, w⟩

/-- `Tuple::new_point(x, y, z)`: w = 1. -/
def new_point (x y z : ℚ) : Tuple := new x y z 1

/-- `Tuple::new_vector(x, y, z)`: w = 0. -/
def new_vector (x y z : ℚ) : Tuple := new x y z 0

/-- `impl PartialEq for Tuple`: every component differs by strictly less
than `EPSILON`. -/
def eqb (t1 t2 : Tuple) : Bool :=
  decide (|t1.x - t2.x| < EPSILON) && decide (|t1.y - t2.y| < EPSILON) &&
    decide (|t1.z - t2.z| < EPSILON) && decide (|t1.w - t2.w| < EPSILON)

end Tuple

/-! ### Color (`src/draw/color.rs`) -/

/-- `struct Color { red, green, blue: f64 }`. -/
structure Color where
  red : ℚ
  green : ℚ
  blue : ℚ
deriving DecidableEq

namespace Color

/-- `Color::new(red, green, blue)`. -/
def new (red green blue : ℚ) : Color := ⟨red, green, blue⟩

/-- `impl PartialEq for Color`: every component differs by strictly less
than `EPSILON`. -/
def eqb (c1 c2 : Color) : Bool :=
  decide (|c1.red - c2.red| < EPSILON) && decide (|c1.green - c2.green| < EPSILON) &&
    decide (|c1.blue - c2.blue| < EPSILON)

end Color

/-! ### Matrix2 (`src/matrix/matrix2.rs`), flat row-major `[f64; 4]` -/

/-- `struct Matrix2 { data: [f64; 4] }` (row major). -/
structure Matrix2 where
  data : Fin 4 → ℚ

namespace Matrix2

/-- `Matrix2::from_array(arr)`: row-major. -/
def from_array (arr : Fin 4 → ℚ) : Matrix2 := ⟨arr⟩

/-- Element at `data[row * 2 + col]` for in-range indices. -/
def entry (m : Matrix2) (row col : Fin 2) : ℚ :=
  m.data ⟨row.val * 2 + col.val, by have := row.isLt; have := col.isLt; omega⟩

/-- `Matrix2::get(row, col)`: `None` when `row >= 2 || col >= 2`. -/
def get (m : Matrix2) (row col : Nat) : Option ℚ :=
  if h : row ≥ 2 ∨ col ≥ 2 then none
  else some (m.entry ⟨row, by omega⟩ ⟨col, by omega⟩)

/-- `Matrix2::identity()`: 1 at flat indices 0 and 3, 0 elsewhere. -/
def identity : Matrix2 :=
  ⟨fun i => if i.val = 0 ∨ i.val = 3 then 1 else 0⟩

/-- `Matrix2::mult_mat` (the `for j in 0..2` inner loop unrolled). -/
def mult_mat (a b : Matrix2) : Matrix2 :=
  ⟨fun i =>
    let row : Fin 2 := ⟨i.val / 2, by have := i.isLt; omega⟩
    let col : Fin 2 := ⟨i.val % 2, by have := i.isLt; omega⟩
    a.entry row 0 * b.entry 0 col + a.entry row 1 * b.entry 1 col⟩

/-- `Matrix2::div_scal`. -/
def div_scal (m : Matrix2) (scal : ℚ) : Matrix2 :=
  ⟨fun i => m.data i / scal⟩

/-- `Matrix2::transpose`. -/
def transpose (m : Matrix2) : Matrix2 :=
  ⟨fun i => m.entry ⟨i.val % 2, by have := i.isLt; omega⟩ ⟨i.val / 2, by have := i.isLt; omega⟩⟩

/-- `Matrix2::det`: `data[0] * data[3] - data[1] * data[2]`. -/
def det (m : Matrix2) : ℚ :=
  m.data 0 * m.data 3 - m.data 1 * m.data 2

/-- `Matrix2::invertible`: `det().abs() > EPSILON`. -/
def invertible (m : Matrix2) : Bool :=
  decide (|m.det| > EPSILON)

/-- `Matrix2::inverse`: `None` when not invertible, otherwise the adjoint
`[d, -b, -c, a]` divided by the determinant. -/
def inverse (m : Matrix2) : Option Matrix2 :=
  if m.invertible = false then none
  else
    some (div_scal (from_array ![m.data 3, -m.data 1, -m.data 2, m.data 0]) m.det)

/-- `impl PartialEq for Matrix2`: the loop returns `false` as soon as one
component pair differs by MORE than `EPSILON`. -/
def eqb (a b : Matrix2) : Bool :=
  decide (∀ i : Fin 4, ¬ (|a.data i - b.data i| > EPSILON))

end Matrix2

/-! ### Matrix3 (`src/matrix/matrix3.rs`), flat row-major `[f64; 9]` -/

/-- `struct Matrix3 { data: [f64; 9] }` (row major). -/
structure Matrix3 where
  data : Fin 9 → ℚ

namespace Matrix3

/-- `Matrix3::from_array(arr)`: row-major. -/
def from_array (arr : Fin 9 → ℚ) : Matrix3 := ⟨arr⟩

/-- Element at `data[row * 3 + col]` for in-range indices. -/
def entry (m : Matrix3) (row col : Fin 3) : ℚ :=
  m.data ⟨row.val * 3 + col.val, by have := row.isLt; have := col.isLt; omega⟩

/-- `Matrix3::get(row, col)`: `None` when `row >= 3 || col >= 3`. -/
def get (m : Matrix3) (row col : Nat) : Option ℚ :=
  if h : row ≥ 3 ∨ col ≥ 3 then none
  else some (m.entry ⟨row, by omega⟩ ⟨col, by omega⟩)

/-- `Matrix3::identity()`: 1 at flat indices 0, 4 and 8, 0 elsewhere. -/
def identity : Matrix3 :=
  ⟨fun i => if i.val = 0 ∨ i.val = 4 ∨ i.val = 8 then 1 else 0⟩

/-- `Matrix3::mult_mat` (the `for j in 0..3` inner loop unrolled). -/
def mult_mat (a b : Matrix3) : Matrix3 :=
  ⟨fun i =>
    let row : Fin 3 := ⟨i.val / 3, by have := i.isLt; omega⟩
    let col : Fin 3 := ⟨i.val % 3, by have := i.isLt; omega⟩
    a.entry row 0 * b.entry 0 col + a.entry row 1 * b.entry 1 col +
      a.entry row 2 * b.entry 2 col⟩

/-- `Matrix3::div_scal`. -/
def div_scal (m : Matrix3) (scal : ℚ) : Matrix3 :=
  ⟨fun i => m.data i / scal⟩

/-- `Matrix3::transpose`: `transposed[i * 3 + j] = data[j * 3 + i]`. -/
def transpose (m : Matrix3) : Matrix3 :=
  ⟨fun i => m.entry ⟨i.val % 3, by have := i.isLt; omega⟩ ⟨i.val / 3, by have := i.isLt; omega⟩⟩

/-- Row (resp. column) index kept by the `submatrix` copy loop: the loop
walks the flat data in order, skipping entries whose row is the deleted row
(resp. whose column is the deleted column), so the `k`-th surviving row index
is `k` when `k < deleted` and `k + 1` otherwise. -/
def skipIdx2 (k : Fin 2) (deleted : Fin 3) : Fin 3 :=
  if k.val < deleted.val then ⟨k.val, by have := k.isLt; omega⟩
  else ⟨k.val + 1, by have := k.isLt; omega⟩

/-- `Matrix3::submatrix(row, col)`: delete the given row and column, copying
the surviving entries in flat order into a `Matrix2`. -/
def submatrix (m : Matrix3) (row col : Fin 3) : Matrix2 :=
  ⟨fun i =>
    m.entry (skipIdx2 ⟨i.val / 2, by have := i.isLt; omega⟩ row)
      (skipIdx2 ⟨i.val % 2, by have := i.isLt; omega⟩ col)⟩

/-- `Matrix3::minor(row, col) = submatrix(row, col).det()`. -/
def minor (m : Matrix3) (row col : Fin 3) : ℚ :=
  (m.submatrix row col).det

/-- `Matrix3::cofactor(row, col)`: the minor, negated when `row + col` is
odd. -/
def cofactor (m : Matrix3) (row col : Fin 3) : ℚ :=
  if (row.val + col.val) % 2 = 0 then m.minor row col else -(m.minor row col)

/-- `Matrix3::det`: first-row cofactor expansion. -/
def det (m : Matrix3) : ℚ :=
  m.data 0 * m.cofactor 0 0 + m.data 1 * m.cofactor 0 1 + m.data 2 * m.cofactor 0 2

/-- `Matrix3::invertible`: `det().abs() > EPSILON`. -/
def invertible (m : Matrix3) : Bool :=
  decide (|m.det| > EPSILON)

/-- `Matrix3::inverse`: `None` when not invertible, otherwise the adjoint
(entry `(row, col)` is `cofactor(col, row)`, the transpose being inlined)
divided by the determinant. -/
def inverse (m : Matrix3) : Option Matrix3 :=
  if m.invertible = false then none
  else
    some (div_scal
      ⟨fun i => m.cofactor ⟨i.val % 3, by have := i.isLt; omega⟩
        ⟨i.val / 3, by have := i.isLt; omega⟩⟩ m.det)

/-- `impl PartialEq for Matrix3`: the loop returns `false` as soon as one
component pair differs by MORE than `EPSILON`. -/
def eqb (a b : Matrix3) : Bool :=
  decide (∀ i : Fin 9, ¬ (|a.data i - b.data i| > EPSILON))

end Matrix3

/-! ### Matrix4 (`src/matrix/matrix4.rs`), flat row-major `[f64; 16]` -/

/-- `struct Matrix4 { data: [f64; 16] }` (row major). -/
structure Matrix4 where
  data : Fin 16 → ℚ

namespace Matrix4

/-- `Matrix4::from_array(arr)`: row-major. -/
def from_array (arr : Fin 16 → ℚ) : Matrix4 := ⟨arr⟩

/-- Element at `data[row * 4 + col]` for in-range indices. -/
def entry (m : Matrix4) (row col : Fin 4) : ℚ :=
  m.data ⟨row.val * 4 + col.val, by have := row.isLt; have := col.isLt; omega⟩

/-- `Matrix4::get(row, col)`: `None` when `row >= 4 || col >= 4`. -/
def get (m : Matrix4) (row col : Nat) : Option ℚ :=
  if h : row ≥ 4 ∨ col ≥ 4 then none
  else some (m.entry ⟨row, by omega⟩ ⟨col, by omega⟩)

/-- `Matrix4::set(row, col, val)`: out-of-bounds error when
`row >= 4 || col >= 4`, otherwise `data[row * 4 + col] = val`.  The mutation
of the source is modelled by returning the updated matrix. -/
def set (m : Matrix4) (row col : Nat) (val : ℚ) : Option Matrix4 :=
  if row ≥ 4 ∨ col ≥ 4 then none
  else some ⟨fun i => if i.val = row * 4 + col then val else m.data i⟩

/-- The `matrix.set(r, c, v).ok();` pattern of `transform.rs`: apply the
update when it succeeds and discard the error (keeping the matrix) when it
does not. -/
def setD (m : Matrix4) (row col : Nat) (val : ℚ) : Matrix4 :=
  (m.set row col val).getD m

/-- `Matrix4::identity()`: 1 at flat indices 0, 5, 10 and 15, 0 elsewhere. -/
def identity : Matrix4 :=
  ⟨fun i => if i.val = 0 ∨ i.val = 5 ∨ i.val = 10 ∨ i.val = 15 then 1 else 0⟩

/-- `Matrix4::from_tuples_by_row(t1, t2, t3, t4)`: the four tuples become the
four rows. -/
def from_tuples_by_row (t1 t2 t3 t4 : Tuple) : Matrix4 :=
  ⟨![t1.x, t1.y, t1.z, t1.w, t2.x, t2.y, t2.z, t2.w,
     t3.x, t3.y, t3.z, t3.w, t4.x, t4.y, t4.z, t4.w]⟩

/-- `Matrix4::mult_mat` (the `for j in 0..4` inner loop unrolled). -/
def mult_mat (a b : Matrix4) : Matrix4 :=
  ⟨fun i =>
    let row : Fin 4 := ⟨i.val / 4, by have := i.isLt; omega⟩
    let col : Fin 4 := ⟨i.val % 4, by have := i.isLt; omega⟩
    a.entry row 0 * b.entry 0 col + a.entry row 1 * b.entry 1 col +
      a.entry row 2 * b.entry 2 col + a.entry row 3 * b.entry 3 col⟩

/-- `Matrix4::mult_vec`. -/
def mult_vec (m : Matrix4) (v : Tuple) : Tuple :=
  Tuple.new
    (m.data 0 * v.x + m.data 1 * v.y + m.data 2 * v.z + m.data 3 * v.w)
    (m.data 4 * v.x + m.data 5 * v.y + m.data 6 * v.z + m.data 7 * v.w)
    (m.data 8 * v.x + m.data 9 * v.y + m.data 10 * v.z + m.data 11 * v.w)
    (m.data 12 * v.x + m.data 13 * v.y + m.data 14 * v.z + m.data 15 * v.w)

/-- `Matrix4::div_scal`. -/
def div_scal (m : Matrix4) (scal : ℚ) : Matrix4 :=
  ⟨fun i => m.data i / scal⟩

/-- `Matrix4::transpose`: `transposed[col * 4 + row] = data[row * 4 + col]`. -/
def transpose (m : Matrix4) : Matrix4 :=
  ⟨fun i => m.entry ⟨i.val % 4, by have := i.isLt; omega⟩ ⟨i.val / 4, by have := i.isLt; omega⟩⟩

/-- Row (resp. column) index kept by the `submatrix` copy loop, as in
`Matrix3.skipIdx2`. -/
def skipIdx3 (k : Fin 3) (deleted : Fin 4) : Fin 4 :=
  if k.val < deleted.val then ⟨k.val, by have := k.isLt; omega⟩
  else ⟨k.val + 1, by have := k.isLt; omega⟩

/-- `Matrix4::submatrix(row, col)`: delete the given row and column, copying
the surviving entries in flat order into a `Matrix3`. -/
def submatrix (m : Matrix4) (row col : Fin 4) : Matrix3 :=
  ⟨fun i =>
    m.entry (skipIdx3 ⟨i.val / 3, by have := i.isLt; omega⟩ row)
      (skipIdx3 ⟨i.val % 3, by have := i.isLt; omega⟩ col)⟩

/-- `Matrix4::minor(row, col) = submatrix(row, col).det()`. -/
def minor (m : Matrix4) (row col : Fin 4) : ℚ :=
  (m.submatrix row col).det

/-- `Matrix4::cofactor(row, col)`: the minor, negated when `row + col` is
odd. -/
def cofactor (m : Matrix4) (row col : Fin 4) : ℚ :=
  if (row.val + col.val) % 2 = 0 then m.minor row col else -(m.minor row col)

/-- `Matrix4::det`: first-row cofactor expansion. -/
def det (m : Matrix4) : ℚ :=
  m.data 0 * m.cofactor 0 0 + m.data 1 * m.cofactor 0 1 +
    m.data 2 * m.cofactor 0 2 + m.data 3 * m.cofactor 0 3

/-- `Matrix4::invertible`: `det().abs() > EPSILON`. -/
def invertible (m : Matrix4) : Bool :=
  decide (|m.det| > EPSILON)

/-- `Matrix4::inverse`: `None` when not invertible, otherwise the adjoint
(entry `(row, col)` is `cofactor(col, row)`, the transpose being inlined)
divided by the determinant. -/
def inverse (m : Matrix4) : Option Matrix4 :=
  if m.invertible = false then none
  else
    some (div_scal
      ⟨fun i => m.cofactor ⟨i.val % 4, by have := i.isLt; omega⟩
        ⟨i.val / 4, by have := i.isLt; omega⟩⟩ m.det)

/-- `impl PartialEq for Matrix4`: the loop returns `false` as soon as one
component pair differs by MORE than `EPSILON`. -/
def eqb (a b : Matrix4) : Bool :=
  decide (∀ i : Fin 16, ¬ (|a.data i - b.data i| > EPSILON))

end Matrix4

/-! ### Transform constructors (`src/transform.rs`) -/

namespace transform

/-- `translation(x, y, z)`: identity with the column-3 entries of rows 0, 1,
2 set to x, y, z. -/
def translation (x y z : ℚ) : Matrix4 :=
  ((Matrix4.identity.setD 0 3 x).setD 1 3 y).setD 2 3 z

/-- `scaling(x, y, z)`: identity with diagonal entries (0,0), (1,1), (2,2)
set to x, y, z. -/
def scaling (x y z : ℚ) : Matrix4 :=
  ((Matrix4.identity.setD 0 0 x).setD 1 1 y).setD 2 2 z

/-- `rotation_x(rad)` with `c = rad.cos()`, `s = rad.sin()` passed as
parameters. -/
def rotation_x (c s : ℚ) : Matrix4 :=
  Matrix4.from_tuples_by_row
    (Tuple.new 1 0 0 0)
    (Tuple.new 0 c (-s) 0)
    (Tuple.new 0 s c 0)
    (Tuple.new 0 0 0 1)

/-- `rotation_y(rad)` with `c = rad.cos()`, `s = rad.sin()` passed as
parameters. -/
def rotation_y (c s : ℚ) : Matrix4 :=
  Matrix4.from_tuples_by_row
    (Tuple.new c 0 s 0)
    (Tuple.new 0 1 0 0)
    (Tuple.new (-s) 0 c 0)
    (Tuple.new 0 0 0 1)

/-- `rotation_z(rad)` with `c = rad.cos()`, `s = rad.sin()` passed as
parameters.  Note the third row of the source is `Tuple::new(0., 0., 0., 0.)`. -/
def rotation_z (c s : ℚ) : Matrix4 :=
  Matrix4.from_tuples_by_row
    (Tuple.new c (-s) 0 0)
    (Tuple.new s c 0 0)
    (Tuple.new 0 0 0 0)
    (Tuple.new 0 0 0 1)

/-- `shear(x_y, x_z, y_x, y_z, z_x, z_y)`. -/
def shear (x_y x_z y_x y_z z_x z_y : ℚ) : Matrix4 :=
  Matrix4.from_tuples_by_row
    (Tuple.new 1 x_y x_z 0)
    (Tuple.new y_x 1 y_z 0)
    (Tuple.new z_x z_y 1 0)
    (Tuple.new 0 0 0 1)

end transform

/-! ### Canvas (`src/draw/canvas.rs`) -/

/-- `struct ColorU8 { red, green, blue: u8 }`; the `u8` channels are kept as
`Nat` values (always in `0..=255` here). -/
structure ColorU8 where
  red : Nat
  green : Nat
  blue : Nat
deriving DecidableEq

/-- `impl From<&Color> for ColorU8`: each channel is
`(component.clamp(0.0, 1.0) * 255.0).round() as u8`.  `f64::clamp(0.0, 1.0)`
is `min (max v 0) 1`; `f64::round` rounds half away from zero, which on the
clamped nonnegative range agrees with `round` (half towards plus infinity);
the `as u8` cast is `Int.toNat` here, the identity on the rounded range
`0..=255`. -/
def ColorU8.fromColor (c : Color) : ColorU8 :=
  ⟨(round (min (max c.red 0) 1 * 255)).toNat,
   (round (min (max c.green 0) 1 * 255)).toNat,
   (round (min (max c.blue 0) 1 * 255)).toNat⟩

/-- Decimal digits of `n`, most significant first, with a fuel argument
bounding the recursion depth (`n` itself more than suffices since the
argument at least halves every step). -/
def natCharsAux : Nat → Nat → List Char
  | 0, _ => []
  | f + 1, n =>
    if n < 10 then [Nat.digitChar n]
    else natCharsAux f (n / 10) ++ [Nat.digitChar (n % 10)]

/-- Decimal representation of `n`: Rust's `Display` for unsigned integers,
as used by `format!` on `u8` and `usize` values. -/
def natChars (n : Nat) : List Char := natCharsAux (n + 1) n

/-- `impl Display for ColorU8`: `"{red} {green} {blue}"`. -/
def ColorU8.chars (c : ColorU8) : List Char :=
  natChars c.red ++ ' ' :: natChars c.green ++ ' ' :: natChars c.blue

/-- `struct Canvas { width, height: usize, pixels: Vec<Color> }` with the
row-major length invariant from the spec data model. -/
structure Canvas where
  width : Nat
  height : Nat
  pixels : List Color
  hlen : pixels.length = width * height

/-- `enum CanvasError`: out-of-bounds access reporting the coordinates and
the canvas bounds. -/
inductive CanvasError where
  | OutOfBounds (x y width height : Nat)
deriving DecidableEq

namespace Canvas

/-- `Canvas::new(width, height)`: `width * height` pixels, all black. -/
def new (width height : Nat) : Canvas :=
  ⟨width, height, List.replicate (width * height) (Color.new 0 0 0), by simp⟩

/-- `Canvas::get_color_at(x, y)`: `None` when out of range, otherwise the
pixel at row-major index `y * width + x`. -/
def get_color_at (c : Canvas) (x y : Nat) : Option Color :=
  if h : x ≥ c.width ∨ y ≥ c.height then none
  else some (c.pixels.get ⟨y * c.width + x, by
    rw [c.hlen]
    have hx : x < c.width := by omega
    have hy : y < c.height := by omega
    calc y * c.width + x < y * c.width + c.width := by omega
      _ = (y + 1) * c.width := (Nat.succ_mul y c.width).symm
      _ ≤ c.height * c.width := Nat.mul_le_mul_right _ hy
      _ = c.width * c.height := Nat.mul_comm _ _⟩)

/-- `Canvas::set_pixel_at(x, y, color)`: out-of-bounds error (carrying x, y,
width, height) when a coordinate is out of range, otherwise overwrite the
pixel at `y * width + x`.  The `&mut self` mutation is modelled by returning
the post-state canvas together with the optional error; on the early error
return the source leaves `self` untouched, so the pre-state is returned. -/
def set_pixel_at (c : Canvas) (x y : Nat) (color : Color) :
    Canvas × Option CanvasError :=
  if x ≥ c.width ∨ y ≥ c.height then
    (c, some (CanvasError.OutOfBounds x y c.width c.height))
  else
    (⟨c.width, c.height, c.pixels.set (y * c.width + x) color, by
      rw [List.length_set]; exact c.hlen⟩, none)

end Canvas

/-- The inner `while` of `wrap_string`: starting at position `e`, scan
downwards for a space, inspecting at most `d` positions (the loop breaks
when `line_end` reaches `line_start` without having found one).  Every
string fed to it is ASCII, so the `is_char_boundary` test of the source is
always true and is dropped. -/
def scanBack (s : List Char) : Nat → Nat → Option Nat
  | _, 0 => none
  | e, d + 1 => if s.get? e = some ' ' then some e else scanBack s (e - 1) d

/-- The outer `while` of `wrap_string`, one recursive step per produced
line, on the suffix of the string starting at `line_start` (so the loop
state `line_start`/`line_end` becomes `0`/`max_len` here).  The fuel
argument bounds the iteration count; each iteration drops at least two
characters, so `length + 1` is plenty.  When `line_end` would run past the
end, the whole remainder is pushed and the loop breaks; when the backward
scan finds no space, the source breaks out of both loops, dropping the
remainder. -/
def wrapFuel (maxLen : Nat) : Nat → List Char → List Char
  | 0, _ => []
  | f + 1, s =>
    if maxLen ≥ s.length then s
    else
      match scanBack s maxLen maxLen with
      | none => []
      | some k => s.take k ++ '\n' :: wrapFuel maxLen f (s.drop (k + 1))

/-- `wrap_string(str, max_len)`. -/
def wrap_string (s : List Char) (maxLen : Nat) : List Char :=
  wrapFuel maxLen (s.length + 1) s

namespace Canvas

/-- One canvas row of `to_ppm` before wrapping: the `width` pixel triplets
(`format!("{}", ColorU8::from(color))`) joined by single spaces
(`Vec::join(" ")`).  The source's `get_color_at(x, y).unwrap()` cannot fail
because `x`/`y` range over the canvas bounds; its result is taken with a
default that is never used. -/
def joinSp : List (List Char) → List Char
  | [] => []
  | [t] => t
  | t :: ts => t ++ ' ' :: joinSp ts

/-- The joined pixel-triplet text of row `y`. -/
def rowChars (c : Canvas) (y : Nat) : List Char :=
  joinSp ((List.range c.width).map fun x =>
    ColorU8.chars (ColorU8.fromColor ((c.get_color_at x y).getD (Color.new 0 0 0))))

/-- The fixed header `format!("P3\n{} {}\n255\n", width, height)`. -/
def ppmHeader (c : Canvas) : List Char :=
  'P' :: '3' :: '\n' ::
    (natChars c.width ++ ' ' :: natChars c.height ++
      '\n' :: '2' :: '5' :: '5' :: '\n' :: [])

/-- `Canvas::to_ppm`: the header, then for every row `y` the wrapped
(70-column) row text followed by a pushed newline. -/
def to_ppm (c : Canvas) : List Char :=
  ppmHeader c ++
    ((List.range c.height).map fun y => wrap_string (rowChars c y) 70 ++ ['\n']).flatten

end Canvas

/-- Split a character string at `'\n'`; a trailing newline closes the last
line (one trailing empty segment appears, as with `str::split`). -/
def splitNl : List Char → List (List Char)
  | [] => [[]]
  | ch :: rest =>
    if ch = '\n' then [] :: splitNl rest
    else
      match splitNl rest with
      | [] => [[ch]]
      | l :: ls => (ch :: l) :: ls

/-- The lines of a character string in the sense of Rust's `str::lines`: a
final newline terminates the last line instead of opening an empty one. -/
def linesOf (s : List Char) : List (List Char) :=
  match s.getLast? with
  | some ch => if ch = '\n' then (splitNl s).dropLast else splitNl s
  | none => []

/-- Replace each newline of a wrapped string by the space it was substituted
for. -/
def unwrapNl (s : List Char) : List Char :=
  s.map fun ch => if ch = '\n' then ' ' else ch

/-! ### Concrete materials used by claims -/

/-- The worked-example matrix `[[-5,2,6,-8],[1,-5,1,8],[7,7,-6,-7],[1,-3,7,4]]`. -/
def exampleM4 : Matrix4 :=
  Matrix4.from_array ![-5, 2, 6, -8, 1, -5, 1, 8, 7, 7, -6, -7, 1, -3, 7, 4]

/-- The inverse the code computes for `exampleM4` (unwrapped). -/
def exampleM4inv : Matrix4 := exampleM4.inverse.getD Matrix4.identity

/-- An invertible 3x3 example (determinant -196, from the source's tests). -/
def exampleM3 : Matrix3 := Matrix3.from_array ![1, 2, 6, -5, 8, -4, 2, 6, 4]

/-- The inverse the code computes for `exampleM3` (unwrapped). -/
def exampleM3inv : Matrix3 := exampleM3.inverse.getD Matrix3.identity

/-- An invertible 2x2 example (determinant 17, from the source's tests). -/
def exampleM2 : Matrix2 := Matrix2.from_array ![1, 5, -3, 2]

/-- The inverse the code computes for `exampleM2` (unwrapped). -/
def exampleM2inv : Matrix2 := exampleM2.inverse.getD Matrix2.identity

/-- The individual number tokens making up one row of the serialized canvas. -/
def Canvas.rowTokens (c : Canvas) (y : Nat) : List (List Char) :=
  ((List.range c.width).map fun x =>
    let u := ColorU8.fromColor ((c.get_color_at x y).getD (Color.new 0 0 0))
    [natChars u.red, natChars u.green, natChars u.blue]).flatten

/-! ### Helper lemmas: index evaluation, extensionality, basic facts -/

set_option maxRecDepth 100000

set_option maxHeartbeats 3000000

attribute [local semireducible] Rat.add Rat.mul Rat.sub Rat.inv

theorem fin2_val0 : ((0 : Fin 2) : ℕ) = 0 := rfl

theorem fin2_mk0 (h : (0:ℕ) < 2) : (⟨0, h⟩ : Fin 2) = 0 := rfl

theorem fin2_val1 : ((1 : Fin 2) : ℕ) = 1 := rfl

theorem fin2_mk1 (h : (1:ℕ) < 2) : (⟨1, h⟩ : Fin 2) = 1 := rfl

theorem fin3_val0 : ((0 : Fin 3) : ℕ) = 0 := rfl

theorem fin3_mk0 (h : (0:ℕ) < 3) : (⟨0, h⟩ : Fin 3) = 0 := rfl

theorem fin3_val1 : ((1 : Fin 3) : ℕ) = 1 := rfl

theorem fin3_mk1 (h : (1:ℕ) < 3) : (⟨1, h⟩ : Fin 3) = 1 := rfl

theorem fin3_val2 : ((2 : Fin 3) : ℕ) = 2 := rfl

theorem fin3_mk2 (h : (2:ℕ) < 3) : (⟨2, h⟩ : Fin 3) = 2 := rfl

theorem fin4_val0 : ((0 : Fin 4) : ℕ) = 0 := rfl

theorem fin4_mk0 (h : (0:ℕ) < 4) : (⟨0, h⟩ : Fin 4) = 0 := rfl

theorem fin4_val1 : ((1 : Fin 4) : ℕ) = 1 := rfl

theorem fin4_mk1 (h : (1:ℕ) < 4) : (⟨1, h⟩ : Fin 4) = 1 := rfl

theorem fin4_val2 : ((2 : Fin 4) : ℕ) = 2 := rfl

theorem fin4_mk2 (h : (2:ℕ) < 4) : (⟨2, h⟩ : Fin 4) = 2 := rfl

theorem fin4_val3 : ((3 : Fin 4) : ℕ) = 3 := rfl

theorem fin4_mk3 (h : (3:ℕ) < 4) : (⟨3, h⟩ : Fin 4) = 3 := rfl

theorem fin9_val0 : ((0 : Fin 9) : ℕ) = 0 := rfl

theorem fin9_mk0 (h : (0:ℕ) < 9) : (⟨0, h⟩ : Fin 9) = 0 := rfl

theorem fin9_val1 : ((1 : Fin 9) : ℕ) = 1 := rfl

theorem fin9_mk1 (h : (1:ℕ) < 9) : (⟨1, h⟩ : Fin 9) = 1 := rfl

theorem fin9_val2 : ((2 : Fin 9) : ℕ) = 2 := rfl

theorem fin9_mk2 (h : (2:ℕ) < 9) : (⟨2, h⟩ : Fin 9) = 2 := rfl

theorem fin9_val3 : ((3 : Fin 9) : ℕ) = 3 := rfl

theorem fin9_mk3 (h : (3:ℕ) < 9) : (⟨3, h⟩ : Fin 9) = 3 := rfl

theorem fin9_val4 : ((4 : Fin 9) : ℕ) = 4 := rfl

theorem fin9_mk4 (h : (4:ℕ) < 9) : (⟨4, h⟩ : Fin 9) = 4 := rfl

theorem fin9_val5 : ((5 : Fin 9) : ℕ) = 5 := rfl

theorem fin9_mk5 (h : (5:ℕ) < 9) : (⟨5, h⟩ : Fin 9) = 5 := rfl

theorem fin9_val6 : ((6 : Fin 9) : ℕ) = 6 := rfl

theorem fin9_mk6 (h : (6:ℕ) < 9) : (⟨6, h⟩ : Fin 9) = 6 := rfl

theorem fin9_val7 : ((7 : Fin 9) : ℕ) = 7 := rfl

theorem fin9_mk7 (h : (7:ℕ) < 9) : (⟨7, h⟩ : Fin 9) = 7 := rfl

theorem fin9_val8 : ((8 : Fin 9) : ℕ) = 8 := rfl

theorem fin9_mk8 (h : (8:ℕ) < 9) : (⟨8, h⟩ : Fin 9) = 8 := rfl

theorem fin16_val0 : ((0 : Fin 16) : ℕ) = 0 := rfl

theorem fin16_mk0 (h : (0:ℕ) < 16) : (⟨0, h⟩ : Fin 16) = 0 := rfl

theorem fin16_val1 : ((1 : Fin 16) : ℕ) = 1 := rfl

theorem fin16_mk1 (h : (1:ℕ) < 16) : (⟨1, h⟩ : Fin 16) = 1 := rfl

theorem fin16_val2 : ((2 : Fin 16) : ℕ) = 2 := rfl

theorem fin16_mk2 (h : (2:ℕ) < 16) : (⟨2, h⟩ : Fin 16) = 2 := rfl

theorem fin16_val3 : ((3 : Fin 16) : ℕ) = 3 := rfl

theorem fin16_mk3 (h : (3:ℕ) < 16) : (⟨3, h⟩ : Fin 16) = 3 := rfl

theorem fin16_val4 : ((4 : Fin 16) : ℕ) = 4 := rfl

theorem fin16_mk4 (h : (4:ℕ) < 16) : (⟨4, h⟩ : Fin 16) = 4 := rfl

theorem fin16_val5 : ((5 : Fin 16) : ℕ) = 5 := rfl

theorem fin16_mk5 (h : (5:ℕ) < 16) : (⟨5, h⟩ : Fin 16) = 5 := rfl

theorem fin16_val6 : ((6 : Fin 16) : ℕ) = 6 := rfl

theorem fin16_mk6 (h : (6:ℕ) < 16) : (⟨6, h⟩ : Fin 16) = 6 := rfl

theorem fin16_val7 : ((7 : Fin 16) : ℕ) = 7 := rfl

theorem fin16_mk7 (h : (7:ℕ) < 16) : (⟨7, h⟩ : Fin 16) = 7 := rfl

theorem fin16_val8 : ((8 : Fin 16) : ℕ) = 8 := rfl

theorem fin16_mk8 (h : (8:ℕ) < 16) : (⟨8, h⟩ : Fin 16) = 8 := rfl

theorem fin16_val9 : ((9 : Fin 16) : ℕ) = 9 := rfl

theorem fin16_mk9 (h : (9:ℕ) < 16) : (⟨9, h⟩ : Fin 16) = 9 := rfl

theorem fin16_val10 : ((10 : Fin 16) : ℕ) = 10 := rfl

theorem fin16_mk10 (h : (10:ℕ) < 16) : (⟨10, h⟩ : Fin 16) = 10 := rfl

theorem fin16_val11 : ((11 : Fin 16) : ℕ) = 11 := rfl

theorem fin16_mk11 (h : (11:ℕ) < 16) : (⟨11, h⟩ : Fin 16) = 11 := rfl

theorem fin16_val12 : ((12 : Fin 16) : ℕ) = 12 := rfl

theorem fin16_mk12 (h : (12:ℕ) < 16) : (⟨12, h⟩ : Fin 16) = 12 := rfl

theorem fin16_val13 : ((13 : Fin 16) : ℕ) = 13 := rfl

theorem fin16_mk13 (h : (13:ℕ) < 16) : (⟨13, h⟩ : Fin 16) = 13 := rfl

theorem fin16_val14 : ((14 : Fin 16) : ℕ) = 14 := rfl

theorem fin16_mk14 (h : (14:ℕ) < 16) : (⟨14, h⟩ : Fin 16) = 14 := rfl

theorem fin16_val15 : ((15 : Fin 16) : ℕ) = 15 := rfl

theorem fin16_mk15 (h : (15:ℕ) < 16) : (⟨15, h⟩ : Fin 16) = 15 := rfl

theorem vec4_e0 (a0 a1 a2 a3 : ℚ) : (![a0,a1,a2,a3]) (0 : Fin 4) = a0 := rfl

theorem vec4_e1 (a0 a1 a2 a3 : ℚ) : (![a0,a1,a2,a3]) (1 : Fin 4) = a1 := rfl

theorem vec4_e2 (a0 a1 a2 a3 : ℚ) : (![a0,a1,a2,a3]) (2 : Fin 4) = a2 := rfl

theorem vec4_e3 (a0 a1 a2 a3 : ℚ) : (![a0,a1,a2,a3]) (3 : Fin 4) = a3 := rfl

theorem vec16_e0 (a0 a1 a2 a3 a4 a5 a6 a7 a8 a9 a10 a11 a12 a13 a14 a15 : ℚ) : (![a0,a1,a2,a3,a4,a5,a6,a7,a8,a9,a10,a11,a12,a13,a14,a15]) (0 : Fin 16) = a0 := rfl

theorem vec16_e1 (a0 a1 a2 a3 a4 a5 a6 a7 a8 a9 a10 a11 a12 a13 a14 a15 : ℚ) : (![a0,a1,a2,a3,a4,a5,a6,a7,a8,a9,a10,a11,a12,a13,a14,a15]) (1 : Fin 16) = a1 := rfl

theorem vec16_e2 (a0 a1 a2 a3 a4 a5 a6 a7 a8 a9 a10 a11 a12 a13 a14 a15 : ℚ) : (![a0,a1,a2,a3,a4,a5,a6,a7,a8,a9,a10,a11,a12,a13,a14,a15]) (2 : Fin 16) = a2 := rfl

theorem vec16_e3 (a0 a1 a2 a3 a4 a5 a6 a7 a8 a9 a10 a11 a12 a13 a14 a15 : ℚ) : (![a0,a1,a2,a3,a4,a5,a6,a7,a8,a9,a10,a11,a12,a13,a14,a15]) (3 : Fin 16) = a3 := rfl

theorem vec16_e4 (a0 a1 a2 a3 a4 a5 a6 a7 a8 a9 a10 a11 a12 a13 a14 a15 : ℚ) : (![a0,a1,a2,a3,a4,a5,a6,a7,a8,a9,a10,a11,a12,a13,a14,a15]) (4 : Fin 16) = a4 := rfl

theorem vec16_e5 (a0 a1 a2 a3 a4 a5 a6 a7 a8 a9 a10 a11 a12 a13 a14 a15 : ℚ) : (![a0,a1,a2,a3,a4,a5,a6,a7,a8,a9,a10,a11,a12,a13,a14,a15]) (5 : Fin 16) = a5 := rfl

theorem vec16_e6 (a0 a1 a2 a3 a4 a5 a6 a7 a8 a9 a10 a11 a12 a13 a14 a15 : ℚ) : (![a0,a1,a2,a3,a4,a5,a6,a7,a8,a9,a10,a11,a12,a13,a14,a15]) (6 : Fin 16) = a6 := rfl

theorem vec16_e7 (a0 a1 a2 a3 a4 a5 a6 a7 a8 a9 a10 a11 a12 a13 a14 a15 : ℚ) : (![a0,a1,a2,a3,a4,a5,a6,a7,a8,a9,a10,a11,a12,a13,a14,a15]) (7 : Fin 16) = a7 := rfl

theorem vec16_e8 (a0 a1 a2 a3 a4 a5 a6 a7 a8 a9 a10 a11 a12 a13 a14 a15 : ℚ) : (![a0,a1,a2,a3,a4,a5,a6,a7,a8,a9,a10,a11,a12,a13,a14,a15]) (8 : Fin 16) = a8 := rfl

theorem vec16_e9 (a0 a1 a2 a3 a4 a5 a6 a7 a8 a9 a10 a11 a12 a13 a14 a15 : ℚ) : (![a0,a1,a2,a3,a4,a5,a6,a7,a8,a9,a10,a11,a12,a13,a14,a15]) (9 : Fin 16) = a9 := rfl

theorem vec16_e10 (a0 a1 a2 a3 a4 a5 a6 a7 a8 a9 a10 a11 a12 a13 a14 a15 : ℚ) : (![a0,a1,a2,a3,a4,a5,a6,a7,a8,a9,a10,a11,a12,a13,a14,a15]) (10 : Fin 16) = a10 := rfl

theorem vec16_e11 (a0 a1 a2 a3 a4 a5 a6 a7 a8 a9 a10 a11 a12 a13 a14 a15 : ℚ) : (![a0,a1,a2,a3,a4,a5,a6,a7,a8,a9,a10,a11,a12,a13,a14,a15]) (11 : Fin 16) = a11 := rfl

theorem vec16_e12 (a0 a1 a2 a3 a4 a5 a6 a7 a8 a9 a10 a11 a12 a13 a14 a15 : ℚ) : (![a0,a1,a2,a3,a4,a5,a6,a7,a8,a9,a10,a11,a12,a13,a14,a15]) (12 : Fin 16) = a12 := rfl

theorem vec16_e13 (a0 a1 a2 a3 a4 a5 a6 a7 a8 a9 a10 a11 a12 a13 a14 a15 : ℚ) : (![a0,a1,a2,a3,a4,a5,a6,a7,a8,a9,a10,a11,a12,a13,a14,a15]) (13 : Fin 16) = a13 := rfl

theorem vec16_e14 (a0 a1 a2 a3 a4 a5 a6 a7 a8 a9 a10 a11 a12 a13 a14 a15 : ℚ) : (![a0,a1,a2,a3,a4,a5,a6,a7,a8,a9,a10,a11,a12,a13,a14,a15]) (14 : Fin 16) = a14 := rfl

theorem vec16_e15 (a0 a1 a2 a3 a4 a5 a6 a7 a8 a9 a10 a11 a12 a13 a14 a15 : ℚ) : (![a0,a1,a2,a3,a4,a5,a6,a7,a8,a9,a10,a11,a12,a13,a14,a15]) (15 : Fin 16) = a15 := rfl


theorem Matrix2.ext2 {a b : Matrix2} (h : ∀ i, a.data i = b.data i) : a = b := by
  cases a; cases b; simpa using funext h

theorem Matrix3.ext3 {a b : Matrix3} (h : ∀ i, a.data i = b.data i) : a = b := by
  cases a; cases b; simpa using funext h

theorem Matrix4.ext4 {a b : Matrix4} (h : ∀ i, a.data i = b.data i) : a = b := by
  cases a; cases b; simpa using funext h

theorem Matrix2.eqb2_of_eq {a b : Matrix2} (h : a = b) : Matrix2.eqb a b = true := by
  subst h
  rw [Matrix2.eqb, decide_eq_true_eq]
  intro i
  simp
  norm_num [EPSILON]

theorem Matrix3.eqb3_of_eq {a b : Matrix3} (h : a = b) : Matrix3.eqb a b = true := by
  subst h
  rw [Matrix3.eqb, decide_eq_true_eq]
  intro i
  simp
  norm_num [EPSILON]

theorem Matrix4.eqb4_of_eq {a b : Matrix4} (h : a = b) : Matrix4.eqb a b = true := by
  subst h
  rw [Matrix4.eqb, decide_eq_true_eq]
  intro i
  simp
  norm_num [EPSILON]

theorem Matrix2.det2_ne_zero_of_invertible {m : Matrix2} (h : m.invertible = true) :
    m.det ≠ 0 := by
  have h2 : |m.det| > EPSILON := by simpa [Matrix2.invertible] using h
  intro h0
  rw [h0] at h2
  norm_num [EPSILON] at h2

theorem Matrix3.det3_ne_zero_of_invertible {m : Matrix3} (h : m.invertible = true) :
    m.det ≠ 0 := by
  have h2 : |m.det| > EPSILON := by simpa [Matrix3.invertible] using h
  intro h0
  rw [h0] at h2
  norm_num [EPSILON] at h2

theorem Matrix4.det4_ne_zero_of_invertible {m : Matrix4} (h : m.invertible = true) :
    m.det ≠ 0 := by
  have h2 : |m.det| > EPSILON := by simpa [Matrix4.invertible] using h
  intro h0
  rw [h0] at h2
  norm_num [EPSILON] at h2

theorem Matrix2.inverse2_eq {m b : Matrix2} (h : m.inverse = some b) :
    m.invertible = true ∧
      b = Matrix2.div_scal (Matrix2.from_array ![m.data 3, -m.data 1, -m.data 2, m.data 0]) m.det := by
  unfold Matrix2.inverse at h
  split at h
  · exact absurd h (by simp)
  · next hc =>
    refine ⟨by simpa using hc, ?_⟩
    exact (Option.some.inj h).symm

theorem Matrix3.inverse3_eq {m b : Matrix3} (h : m.inverse = some b) :
    m.invertible = true ∧
      b = Matrix3.div_scal
        ⟨fun i => m.cofactor ⟨i.val % 3, by have := i.isLt; omega⟩
          ⟨i.val / 3, by have := i.isLt; omega⟩⟩ m.det := by
  unfold Matrix3.inverse at h
  split at h
  · exact absurd h (by simp)
  · next hc =>
    refine ⟨by simpa using hc, ?_⟩
    exact (Option.some.inj h).symm

theorem Matrix4.inverse4_eq {m b : Matrix4} (h : m.inverse = some b) :
    m.invertible = true ∧
      b = Matrix4.div_scal
        ⟨fun i => m.cofactor ⟨i.val % 4, by have := i.isLt; omega⟩
          ⟨i.val / 4, by have := i.isLt; omega⟩⟩ m.det := by
  unfold Matrix4.inverse at h
  split at h
  · exact absurd h (by simp)
  · next hc =>
    refine ⟨by simpa using hc, ?_⟩
    exact (Option.some.inj h).symm

theorem Matrix2.mul_inverse2_exact {m b : Matrix2} (h : m.inverse = some b) :
    m.mult_mat b = Matrix2.identity := by
  obtain ⟨hinv, hb⟩ := Matrix2.inverse2_eq h
  have hd := Matrix2.det2_ne_zero_of_invertible hinv
  have hd2 : m.data 0 * m.data 3 - m.data 1 * m.data 2 ≠ 0 := by
    simpa [Matrix2.det] using hd
  subst hb
  apply Matrix2.ext2
  intro i
  fin_cases i <;>
    · simp [Matrix2.mult_mat, Matrix2.entry, Matrix2.div_scal, Matrix2.from_array,
        Matrix2.identity, Matrix2.det, fin2_val0, fin2_mk0, fin2_val1, fin2_mk1, fin3_val0, fin3_mk0, fin3_val1, fin3_mk1, fin3_val2, fin3_mk2, fin4_val0, fin4_mk0, fin4_val1, fin4_mk1, fin4_val2, fin4_mk2, fin4_val3, fin4_mk3, fin9_val0, fin9_mk0, fin9_val1, fin9_mk1, fin9_val2, fin9_mk2, fin9_val3, fin9_mk3, fin9_val4, fin9_mk4, fin9_val5, fin9_mk5, fin9_val6, fin9_mk6, fin9_val7, fin9_mk7, fin9_val8, fin9_mk8, fin16_val0, fin16_mk0, fin16_val1, fin16_mk1, fin16_val2, fin16_mk2, fin16_val3, fin16_mk3, fin16_val4, fin16_mk4, fin16_val5, fin16_mk5, fin16_val6, fin16_mk6, fin16_val7, fin16_mk7, fin16_val8, fin16_mk8, fin16_val9, fin16_mk9, fin16_val10, fin16_mk10, fin16_val11, fin16_mk11, fin16_val12, fin16_mk12, fin16_val13, fin16_mk13, fin16_val14, fin16_mk14, fin16_val15, fin16_mk15, vec4_e0, vec4_e1, vec4_e2, vec4_e3, vec16_e0, vec16_e1, vec16_e2, vec16_e3, vec16_e4, vec16_e5, vec16_e6, vec16_e7, vec16_e8, vec16_e9, vec16_e10, vec16_e11, vec16_e12, vec16_e13, vec16_e14, vec16_e15]
      field_simp
      try ring

theorem Matrix3.mul_inverse3_exact {m b : Matrix3} (h : m.inverse = some b) :
    m.mult_mat b = Matrix3.identity := by
  obtain ⟨hinv, hb⟩ := Matrix3.inverse3_eq h
  have hd := Matrix3.det3_ne_zero_of_invertible hinv
  subst hb
  apply Matrix3.ext3
  intro i
  fin_cases i <;>
    · simp [Matrix3.mult_mat, Matrix3.entry, Matrix3.div_scal, Matrix3.identity,
        Matrix3.cofactor, Matrix3.minor, Matrix3.submatrix, Matrix3.skipIdx2, Matrix2.det, fin2_val0, fin2_mk0, fin2_val1, fin2_mk1, fin3_val0, fin3_mk0, fin3_val1, fin3_mk1, fin3_val2, fin3_mk2, fin4_val0, fin4_mk0, fin4_val1, fin4_mk1, fin4_val2, fin4_mk2, fin4_val3, fin4_mk3, fin9_val0, fin9_mk0, fin9_val1, fin9_mk1, fin9_val2, fin9_mk2, fin9_val3, fin9_mk3, fin9_val4, fin9_mk4, fin9_val5, fin9_mk5, fin9_val6, fin9_mk6, fin9_val7, fin9_mk7, fin9_val8, fin9_mk8, fin16_val0, fin16_mk0, fin16_val1, fin16_mk1, fin16_val2, fin16_mk2, fin16_val3, fin16_mk3, fin16_val4, fin16_mk4, fin16_val5, fin16_mk5, fin16_val6, fin16_mk6, fin16_val7, fin16_mk7, fin16_val8, fin16_mk8, fin16_val9, fin16_mk9, fin16_val10, fin16_mk10, fin16_val11, fin16_mk11, fin16_val12, fin16_mk12, fin16_val13, fin16_mk13, fin16_val14, fin16_mk14, fin16_val15, fin16_mk15]
      simp only [← mul_div_assoc, div_add_div_same]
      rw [div_eq_iff hd]
      conv_rhs => simp [Matrix3.det, Matrix3.cofactor, Matrix3.minor, Matrix3.submatrix, Matrix3.skipIdx2, Matrix2.det, Matrix3.entry, fin2_val0, fin2_mk0, fin2_val1, fin2_mk1, fin3_val0, fin3_mk0, fin3_val1, fin3_mk1, fin3_val2, fin3_mk2, fin4_val0, fin4_mk0, fin4_val1, fin4_mk1, fin4_val2, fin4_mk2, fin4_val3, fin4_mk3, fin9_val0, fin9_mk0, fin9_val1, fin9_mk1, fin9_val2, fin9_mk2, fin9_val3, fin9_mk3, fin9_val4, fin9_mk4, fin9_val5, fin9_mk5, fin9_val6, fin9_mk6, fin9_val7, fin9_mk7, fin9_val8, fin9_mk8, fin16_val0, fin16_mk0, fin16_val1, fin16_mk1, fin16_val2, fin16_mk2, fin16_val3, fin16_mk3, fin16_val4, fin16_mk4, fin16_val5, fin16_mk5, fin16_val6, fin16_mk6, fin16_val7, fin16_mk7, fin16_val8, fin16_mk8, fin16_val9, fin16_mk9, fin16_val10, fin16_mk10, fin16_val11, fin16_mk11, fin16_val12, fin16_mk12, fin16_val13, fin16_mk13, fin16_val14, fin16_mk14, fin16_val15, fin16_mk15]
      try ring

theorem Matrix4.mul_inverse4_exact {m b : Matrix4} (h : m.inverse = some b) :
    m.mult_mat b = Matrix4.identity := by
  obtain ⟨hinv, hb⟩ := Matrix4.inverse4_eq h
  have hd := Matrix4.det4_ne_zero_of_invertible hinv
  subst hb
  apply Matrix4.ext4
  intro i
  fin_cases i <;>
    · simp [Matrix4.mult_mat, Matrix4.entry, Matrix4.div_scal, Matrix4.identity,
        Matrix4.cofactor, Matrix4.minor, Matrix4.submatrix, Matrix4.skipIdx3, Matrix3.det, Matrix3.cofactor, Matrix3.minor, Matrix3.submatrix, Matrix3.entry, Matrix3.skipIdx2, Matrix2.det, fin2_val0, fin2_mk0, fin2_val1, fin2_mk1, fin3_val0, fin3_mk0, fin3_val1, fin3_mk1, fin3_val2, fin3_mk2, fin4_val0, fin4_mk0, fin4_val1, fin4_mk1, fin4_val2, fin4_mk2, fin4_val3, fin4_mk3, fin9_val0, fin9_mk0, fin9_val1, fin9_mk1, fin9_val2, fin9_mk2, fin9_val3, fin9_mk3, fin9_val4, fin9_mk4, fin9_val5, fin9_mk5, fin9_val6, fin9_mk6, fin9_val7, fin9_mk7, fin9_val8, fin9_mk8, fin16_val0, fin16_mk0, fin16_val1, fin16_mk1, fin16_val2, fin16_mk2, fin16_val3, fin16_mk3, fin16_val4, fin16_mk4, fin16_val5, fin16_mk5, fin16_val6, fin16_mk6, fin16_val7, fin16_mk7, fin16_val8, fin16_mk8, fin16_val9, fin16_mk9, fin16_val10, fin16_mk10, fin16_val11, fin16_mk11, fin16_val12, fin16_mk12, fin16_val13, fin16_mk13, fin16_val14, fin16_mk14, fin16_val15, fin16_mk15]
      simp only [← mul_div_assoc, div_add_div_same]
      rw [div_eq_iff hd]
      conv_rhs => simp [Matrix4.det, Matrix4.cofactor, Matrix4.minor, Matrix4.submatrix, Matrix4.skipIdx3, Matrix3.det, Matrix3.cofactor, Matrix3.minor, Matrix3.submatrix, Matrix3.entry, Matrix3.skipIdx2, Matrix2.det, Matrix4.entry, fin2_val0, fin2_mk0, fin2_val1, fin2_mk1, fin3_val0, fin3_mk0, fin3_val1, fin3_mk1, fin3_val2, fin3_mk2, fin4_val0, fin4_mk0, fin4_val1, fin4_mk1, fin4_val2, fin4_mk2, fin4_val3, fin4_mk3, fin9_val0, fin9_mk0, fin9_val1, fin9_mk1, fin9_val2, fin9_mk2, fin9_val3, fin9_mk3, fin9_val4, fin9_mk4, fin9_val5, fin9_mk5, fin9_val6, fin9_mk6, fin9_val7, fin9_mk7, fin9_val8, fin9_mk8, fin16_val0, fin16_mk0, fin16_val1, fin16_mk1, fin16_val2, fin16_mk2, fin16_val3, fin16_mk3, fin16_val4, fin16_mk4, fin16_val5, fin16_mk5, fin16_val6, fin16_mk6, fin16_val7, fin16_mk7, fin16_val8, fin16_mk8, fin16_val9, fin16_mk9, fin16_val10, fin16_mk10, fin16_val11, fin16_mk11, fin16_val12, fin16_mk12, fin16_val13, fin16_mk13, fin16_val14, fin16_mk14, fin16_val15, fin16_mk15]
      try ring

/-! ### Helper lemmas for the serialization claims -/

theorem digitChar_ne_nl_sp (n : Nat) :
    Nat.digitChar n ≠ '\n' ∧ Nat.digitChar n ≠ ' ' := by
  rcases Nat.lt_or_ge n 16 with h | h
  · interval_cases n <;> exact ⟨by decide, by decide⟩
  · unfold Nat.digitChar
    rw [if_neg (by omega : ¬ n = 0), if_neg (by omega : ¬ n = 1), if_neg (by omega : ¬ n = 2), if_neg (by omega : ¬ n = 3), if_neg (by omega : ¬ n = 4), if_neg (by omega : ¬ n = 5), if_neg (by omega : ¬ n = 6), if_neg (by omega : ¬ n = 7), if_neg (by omega : ¬ n = 8), if_neg (by omega : ¬ n = 9), if_neg (by omega : ¬ n = 10), if_neg (by omega : ¬ n = 11), if_neg (by omega : ¬ n = 12), if_neg (by omega : ¬ n = 13), if_neg (by omega : ¬ n = 14), if_neg (by omega : ¬ n = 15)]
    exact ⟨by decide, by decide⟩

theorem natCharsAux_ne_nl_sp (f n : Nat) :
    ∀ ch ∈ natCharsAux f n, ch ≠ '\n' ∧ ch ≠ ' ' := by
  induction f generalizing n with
  | zero => intro ch h; simp [natCharsAux] at h
  | succ f ih =>
    intro ch h
    rw [natCharsAux] at h
    split at h
    · simp at h
      subst h
      exact digitChar_ne_nl_sp n
    · rw [List.mem_append] at h
      rcases h with h | h
      · exact ih _ ch h
      · simp at h
        subst h
        exact digitChar_ne_nl_sp (n % 10)

theorem natChars_ne_nl_sp (n : Nat) : ∀ ch ∈ natChars n, ch ≠ '\n' ∧ ch ≠ ' ' :=
  natCharsAux_ne_nl_sp (n + 1) n

theorem natCharsAux_ne_nil (f n : Nat) (hf : 0 < f) : natCharsAux f n ≠ [] := by
  cases f with
  | zero => omega
  | succ f =>
    rw [natCharsAux]
    split
    · simp
    · simp

theorem natCharsAux_length_le (f : Nat) :
    ∀ n k, 1 ≤ k → n < 10 ^ k → n < f → (natCharsAux f n).length ≤ k := by
  induction f with
  | zero => intro n k _ _ h; omega
  | succ f ih =>
    intro n k hk hnk hnf
    rw [natCharsAux]
    split
    · simpa using hk
    · next hn =>
      push_neg at hn
      have hk2 : 2 ≤ k := by
        by_contra hlt
        have : k = 1 := by omega
        subst this
        simp at hnk
        omega
      have h1 : n / 10 < 10 ^ (k - 1) := by
        have h10 : 10 ^ k = 10 ^ (k - 1) * 10 := by
          rw [← pow_succ]
          congr 1
          omega
        rw [h10] at hnk
        exact Nat.div_lt_of_lt_mul (by omega)
      have h2 : n / 10 < f := by
        have : n / 10 < n := Nat.div_lt_self (by omega) (by omega)
        omega
      have := ih (n / 10) (k - 1) (by omega) h1 h2
      simp only [List.length_append, List.length_cons, List.length_nil]
      omega

theorem natChars_length_le (n k : Nat) (hk : 1 ≤ k) (hnk : n < 10 ^ k) :
    (natChars n).length ≤ k :=
  natCharsAux_length_le (n + 1) n k hk hnk (by omega)

theorem splitNl_ne_nil (s : List Char) : splitNl s ≠ [] := by
  induction s with
  | nil => simp [splitNl]
  | cons ch rest ih =>
    rw [splitNl]
    split
    · simp
    · split
      · simp
      · simp

theorem splitNl_append_cons (a b : List Char) (ha : '\n' ∉ a) :
    splitNl (a ++ '\n' :: b) = a :: splitNl b := by
  induction a with
  | nil => simp [splitNl]
  | cons ch a ih =>
    have hch : ch ≠ '\n' := fun h => ha (h ▸ List.mem_cons_self ch a)
    have ha2 : '\n' ∉ a := fun h => ha (List.mem_cons_of_mem _ h)
    rw [List.cons_append, splitNl, if_neg hch, ih ha2]

theorem splitNl_no_nl (a : List Char) (ha : '\n' ∉ a) : splitNl a = [a] := by
  induction a with
  | nil => simp [splitNl]
  | cons ch a ih =>
    have hch : ch ≠ '\n' := fun h => ha (h ▸ List.mem_cons_self ch a)
    have ha2 : '\n' ∉ a := fun h => ha (List.mem_cons_of_mem _ h)
    rw [splitNl, if_neg hch, ih ha2]

theorem unwrapNl_no_nl (a : List Char) (ha : '\n' ∉ a) : unwrapNl a = a := by
  rw [unwrapNl]
  conv_rhs => rw [← List.map_id a]
  apply List.map_congr_left
  intro ch hch
  have : ch ≠ '\n' := fun h => ha (h ▸ hch)
  simp [this]

theorem joinSp_append (ts₁ ts₂ : List (List Char)) (h1 : ts₁ ≠ []) (h2 : ts₂ ≠ []) :
    Canvas.joinSp (ts₁ ++ ts₂) = Canvas.joinSp ts₁ ++ ' ' :: Canvas.joinSp ts₂ := by
  induction ts₁ with
  | nil => exact absurd rfl h1
  | cons t ts ih =>
    cases ts with
    | nil =>
      cases ts₂ with
      | nil => exact absurd rfl h2
      | cons u us => simp [Canvas.joinSp]
    | cons t2 ts' =>
      have ihh := ih (by simp)
      show t ++ ' ' :: Canvas.joinSp (t2 :: ts' ++ ts₂) =
        (t ++ ' ' :: Canvas.joinSp (t2 :: ts')) ++ ' ' :: Canvas.joinSp ts₂
      rw [ihh]
      simp

theorem mem_joinSp (ts : List (List Char)) (ch : Char) (hch : ch ∈ Canvas.joinSp ts) :
    ch = ' ' ∨ ∃ t ∈ ts, ch ∈ t := by
  induction ts with
  | nil => simp [Canvas.joinSp] at hch
  | cons t ts ih =>
    cases ts with
    | nil =>
      simp [Canvas.joinSp] at hch
      exact Or.inr ⟨t, by simp, hch⟩
    | cons t2 ts' =>
      rw [show Canvas.joinSp (t :: t2 :: ts') = t ++ ' ' :: Canvas.joinSp (t2 :: ts') from rfl]
        at hch
      rw [List.mem_append] at hch
      rcases hch with h | h
      · exact Or.inr ⟨t, by simp, h⟩
      · rcases List.mem_cons.mp h with h | h
        · exact Or.inl h
        · rcases ih h with h | ⟨u, hu, hcu⟩
          · exact Or.inl h
          · exact Or.inr ⟨u, List.mem_cons_of_mem _ hu, hcu⟩

theorem nl_not_mem_joinSp (ts : List (List Char)) (hts : ∀ t ∈ ts, '\n' ∉ t) :
    '\n' ∉ Canvas.joinSp ts := by
  intro h
  rcases mem_joinSp ts '\n' h with h | ⟨t, ht, hmem⟩
  · exact absurd h.symm (by decide)
  · exact hts t ht hmem

theorem scanBack_eq_some {s : List Char} {e d k : Nat} (h : scanBack s e d = some k) :
    s.get? k = some ' ' ∧ k ≤ e ∧ e < k + d := by
  induction d generalizing e with
  | zero => simp [scanBack] at h
  | succ d ih =>
    rw [scanBack] at h
    split at h
    · next hsp =>
      cases h
      exact ⟨hsp, le_refl _, by omega⟩
    · obtain ⟨h1, h2, h3⟩ := ih h
      exact ⟨h1, by omega, by omega⟩

theorem scanBack_isSome_of_exists {s : List Char} {j : Nat} :
    ∀ {e d : Nat}, e < j + d → j ≤ e → s.get? j = some ' ' →
      ∃ k, scanBack s e d = some k := by
  intro e d
  induction d generalizing e with
  | zero => omega
  | succ d ih =>
    intro h1 h2 hsp
    rw [scanBack]
    split
    · exact ⟨e, rfl⟩
    · next hne =>
      have hje : j ≠ e := fun he => hne (he ▸ hsp)
      exact ih (by omega) (by omega) hsp

theorem joinSp_cons (t : List Char) (ts : List (List Char)) (h : ts ≠ []) :
    Canvas.joinSp (t :: ts) = t ++ ' ' :: Canvas.joinSp ts := by
  cases ts with
  | nil => exact absurd rfl h
  | cons u us => rfl

theorem joinSp_space_split (ts : List (List Char)) (hts : ∀ t ∈ ts, t ≠ [] ∧ ' ' ∉ t) :
    ∀ k, (Canvas.joinSp ts).get? k = some ' ' →
      ∃ ts₁ ts₂, ts = ts₁ ++ ts₂ ∧ ts₁ ≠ [] ∧ ts₂ ≠ [] ∧
        (Canvas.joinSp ts).take k = Canvas.joinSp ts₁ ∧
        (Canvas.joinSp ts).drop (k + 1) = Canvas.joinSp ts₂ := by
  induction ts with
  | nil => intro k hk; simp [Canvas.joinSp] at hk
  | cons t ts ih =>
    intro k hk
    cases ts with
    | nil =>
      exact absurd ((hts t (by simp)).2) (by
        simp only [not_not]
        exact List.get?_mem (by simpa [Canvas.joinSp] using hk))
    | cons t2 ts' =>
      have hj : Canvas.joinSp (t :: t2 :: ts') = t ++ ' ' :: Canvas.joinSp (t2 :: ts') := rfl
      rcases Nat.lt_trichotomy k t.length with hlt | heq | hgt
      · exfalso
        rw [hj, List.get?_append hlt] at hk
        exact (hts t (by simp)).2 (List.get?_mem hk)
      · subst heq
        refine ⟨[t], t2 :: ts', by simp, by simp, by simp, ?_, ?_⟩
        · rw [hj]
          have h2 := List.take_left t (' ' :: Canvas.joinSp (t2 :: ts'))
          simpa [Canvas.joinSp] using h2
        · rw [hj, show t.length + 1 = (t ++ [' ']).length by simp,
            show t ++ ' ' :: Canvas.joinSp (t2 :: ts') =
              (t ++ [' ']) ++ Canvas.joinSp (t2 :: ts') by simp]
          exact List.drop_left _ _
      · have hk2 : (Canvas.joinSp (t2 :: ts')).get? (k - t.length - 1) = some ' ' := by
          rw [hj, List.get?_append_right (by omega)] at hk
          rw [show k - t.length = (k - t.length - 1) + 1 by omega] at hk
          simpa using hk
        have hts2 : ∀ u ∈ t2 :: ts', u ≠ [] ∧ ' ' ∉ u :=
          fun u hu => hts u (List.mem_cons_of_mem _ hu)
        obtain ⟨ts₁, ts₂, hsplit, hne1, hne2, htake, hdrop⟩ := ih hts2 (k - t.length - 1) hk2
        refine ⟨t :: ts₁, ts₂, by rw [hsplit]; simp, by simp, hne2, ?_, ?_⟩
        · rw [hj, List.take_append_eq_append_take, List.take_of_length_le (by omega),
            show k - t.length = (k - t.length - 1) + 1 by omega, List.take_cons (by omega),
            Nat.add_sub_cancel, htake, joinSp_cons t ts₁ hne1]
        · rw [hj, List.drop_append_eq_append_drop,
            List.drop_eq_nil_of_le (by omega : t.length ≤ k + 1),
            show k + 1 - t.length = (k - t.length - 1) + 1 + 1 by omega,
            List.drop_succ_cons, List.nil_append, hdrop]

theorem wrapFuel_unwrap (maxLen : Nat) :
    ∀ n ts, ts.length ≤ n →
      (∀ t ∈ ts, t ≠ [] ∧ ' ' ∉ t ∧ '\n' ∉ t ∧ t.length ≤ maxLen) →
      ∀ f, (Canvas.joinSp ts).length < f →
        unwrapNl (wrapFuel maxLen f (Canvas.joinSp ts)) = Canvas.joinSp ts := by
  intro n
  induction n with
  | zero =>
    intro ts hn hts f hf
    have hts0 : ts = [] := List.length_eq_zero.mp (by omega)
    subst hts0
    cases f with
    | zero => simp [Canvas.joinSp] at hf
    | succ f =>
      rw [wrapFuel, if_pos (by simp [Canvas.joinSp])]
      simp [Canvas.joinSp, unwrapNl]
  | succ n ih =>
    intro ts hn hts f hf
    have hnl : '\n' ∉ Canvas.joinSp ts := nl_not_mem_joinSp ts fun t ht => (hts t ht).2.2.1
    cases f with
    | zero => omega
    | succ f =>
      rw [wrapFuel]
      by_cases hlen : maxLen ≥ (Canvas.joinSp ts).length
      · rw [if_pos hlen]
        exact unwrapNl_no_nl _ hnl
      · rw [if_neg hlen]
        push_neg at hlen
        obtain ⟨t, ts', rfl⟩ : ∃ t ts', ts = t :: ts' := by
          cases ts with
          | nil => simp [Canvas.joinSp] at hlen
          | cons t ts' => exact ⟨t, ts', rfl⟩
        have ht0 := hts t (by simp)
        have hts' : ts' ≠ [] := by
          intro h
          subst h
          have h1 : Canvas.joinSp [t] = t := rfl
          rw [h1] at hlen
          omega
        have hj : Canvas.joinSp (t :: ts') = t ++ ' ' :: Canvas.joinSp ts' :=
          joinSp_cons t ts' hts'
        have hsp : (Canvas.joinSp (t :: ts')).get? t.length = some ' ' := by
          rw [hj, List.get?_append_right (le_refl _)]
          simp
        have htpos : 0 < t.length := List.length_pos.mpr ht0.1
        obtain ⟨k, hk⟩ := scanBack_isSome_of_exists (e := maxLen) (d := maxLen)
          (by omega) ht0.2.2.2 hsp
        obtain ⟨hksp, hkle, hkgt⟩ := scanBack_eq_some hk
        have hkpos : 0 < k := by omega
        rw [hk]
        obtain ⟨ts₁, ts₂, hsplit, hne1, hne2, htake, hdrop⟩ :=
          joinSp_space_split (t :: ts') (fun u hu => ⟨(hts u hu).1, (hts u hu).2.1⟩) k hksp
        have hklt : k < (Canvas.joinSp (t :: ts')).length := by
          by_contra hge
          push_neg at hge
          rw [List.get?_eq_none.mpr hge] at hksp
          exact absurd hksp (by simp)
        have hrec : unwrapNl (wrapFuel maxLen f ((Canvas.joinSp (t :: ts')).drop (k + 1))) =
            (Canvas.joinSp (t :: ts')).drop (k + 1) := by
          rw [hdrop]
          have hlen2 : ts₂.length ≤ n := by
            have hlsp := congrArg List.length hsplit
            simp at hlsp
            have h1 : 0 < ts₁.length := List.length_pos.mpr hne1
            have hn2 : ts'.length + 1 ≤ n + 1 := by simpa using hn
            omega
          have hsub : ∀ u ∈ ts₂, u ≠ [] ∧ ' ' ∉ u ∧ '\n' ∉ u ∧ u.length ≤ maxLen := by
            intro u hu
            exact hts u (hsplit ▸ List.mem_append_right ts₁ hu)
          apply ih ts₂ hlen2 hsub
          have hd2 : ((Canvas.joinSp (t :: ts')).drop (k + 1)).length =
              (Canvas.joinSp (t :: ts')).length - (k + 1) := List.length_drop _ _
          rw [← hdrop, hd2]
          omega
        rw [unwrapNl, List.map_append, List.map_cons, if_pos rfl,
          ← unwrapNl, ← unwrapNl, hrec]
        rw [unwrapNl_no_nl _ (fun hmem => hnl (List.mem_of_mem_take hmem))]
        have hgetk : (Canvas.joinSp (t :: ts')).get ⟨k, hklt⟩ = ' ' := by
          have hh := List.get?_eq_get hklt
          rw [hh] at hksp
          exact Option.some.inj hksp
        conv_rhs => rw [← List.take_append_drop k (Canvas.joinSp (t :: ts')),
          List.drop_eq_get_cons hklt, hgetk]

theorem wrapFuel_lines_le (maxLen : Nat) :
    ∀ f s rest, s.length < f → '\n' ∉ s →
      (∀ l ∈ splitNl rest, l.length ≤ maxLen) →
      ∀ l ∈ splitNl (wrapFuel maxLen f s ++ '\n' :: rest), l.length ≤ maxLen := by
  intro f
  induction f with
  | zero => intro s rest hf; omega
  | succ f ih =>
    intro s rest hf hnl hrest
    rw [wrapFuel]
    by_cases hlen : maxLen ≥ s.length
    · rw [if_pos hlen, splitNl_append_cons s rest hnl]
      intro l hl
      rcases List.mem_cons.mp hl with h | h
      · subst h; omega
      · exact hrest l h
    · rw [if_neg hlen]
      push_neg at hlen
      cases hsc : scanBack s maxLen maxLen with
      | none =>
        simp only [List.nil_append]
        rw [show splitNl ('\n' :: rest) = [] :: splitNl rest by rw [splitNl, if_pos rfl]]
        intro l hl
        rcases List.mem_cons.mp hl with h | h
        · subst h; simp
        · exact hrest l h
      | some k =>
        obtain ⟨hksp, hkle, hkgt⟩ := scanBack_eq_some hsc
        have hnl_take : '\n' ∉ s.take k := fun h => hnl (List.mem_of_mem_take h)
        have hnl_drop : '\n' ∉ s.drop (k + 1) := fun h => hnl (List.mem_of_mem_drop h)
        rw [List.append_assoc, List.cons_append,
          splitNl_append_cons (s.take k) _ hnl_take]
        intro l hl
        rcases List.mem_cons.mp hl with h | h
        · subst h
          calc (s.take k).length ≤ k := by simp
            _ ≤ maxLen := hkle
        · refine ih (s.drop (k + 1)) rest ?_ hnl_drop hrest l h
          rw [List.length_drop]
          omega

theorem round_clamp_channel_le (v : ℚ) : (round (min (max v 0) 1 * 255)).toNat ≤ 255 := by
  have h1 : min (max v 0) 1 * 255 ≤ 255 := by
    have h2 : min (max v 0) 1 ≤ 1 := min_le_right _ _
    nlinarith
  have h3 : round (min (max v 0) 1 * 255) ≤ 255 := by
    rw [round_eq]
    calc ⌊min (max v 0) 1 * 255 + 1 / 2⌋ ≤ ⌊(255 : ℚ) + 1 / 2⌋ :=
          Int.floor_le_floor (by linarith)
      _ = 255 := by norm_num
  exact Int.toNat_le.mpr h3

theorem joinSp_chars_eq_tokens (us : List ColorU8) :
    Canvas.joinSp (us.map ColorU8.chars) =
      Canvas.joinSp ((us.map fun u =>
        [natChars u.red, natChars u.green, natChars u.blue]).flatten) := by
  induction us with
  | nil => rfl
  | cons u us ih =>
    cases us with
    | nil => simp [Canvas.joinSp, ColorU8.chars]
    | cons u2 us' =>
      have h2 : ((u2 :: us').map fun w =>
          [natChars w.red, natChars w.green, natChars w.blue]).flatten ≠ [] := by
        rw [List.map_cons, List.flatten_cons]
        simp
      calc Canvas.joinSp (List.map ColorU8.chars (u :: u2 :: us'))
          = ColorU8.chars u ++ ' ' :: Canvas.joinSp (List.map ColorU8.chars (u2 :: us')) := by
            rw [List.map_cons]
            exact joinSp_cons _ _ (by simp)
        _ = ColorU8.chars u ++ ' ' :: Canvas.joinSp (((u2 :: us').map fun w =>
              [natChars w.red, natChars w.green, natChars w.blue]).flatten) := by rw [ih]
        _ = Canvas.joinSp ([natChars u.red, natChars u.green, natChars u.blue] ++
              ((u2 :: us').map fun w =>
                [natChars w.red, natChars w.green, natChars w.blue]).flatten) := by
            rw [joinSp_append _ _ (by simp) h2]
            simp [ColorU8.chars, Canvas.joinSp]
        _ = Canvas.joinSp (((u :: u2 :: us').map fun w =>
              [natChars w.red, natChars w.green, natChars w.blue]).flatten) := by
            conv_rhs => rw [List.map_cons, List.flatten_cons]

theorem rowChars_eq_joinSp_rowTokens (c : Canvas) (y : Nat) :
    Canvas.rowChars c y = Canvas.joinSp (Canvas.rowTokens c y) := by
  rw [Canvas.rowChars, Canvas.rowTokens]
  have h := joinSp_chars_eq_tokens ((List.range c.width).map fun x =>
    ColorU8.fromColor ((c.get_color_at x y).getD (Color.new 0 0 0)))
  simpa [List.map_map, Function.comp] using h

theorem rowTokens_good (c : Canvas) (y : Nat) :
    ∀ t ∈ Canvas.rowTokens c y, t ≠ [] ∧ ' ' ∉ t ∧ '\n' ∉ t ∧ t.length ≤ 70 := by
  intro t ht
  rw [Canvas.rowTokens, List.mem_flatten] at ht
  obtain ⟨l, hl, htl⟩ := ht
  rw [List.mem_map] at hl
  obtain ⟨x, _, rfl⟩ := hl
  have hm : ∃ m ≤ 255, t = natChars m := by
    simp only [List.mem_cons, List.not_mem_nil, or_false] at htl
    rcases htl with h | h | h
    · exact ⟨_, round_clamp_channel_le _, h⟩
    · exact ⟨_, round_clamp_channel_le _, h⟩
    · exact ⟨_, round_clamp_channel_le _, h⟩
  obtain ⟨m, hm255, rfl⟩ := hm
  refine ⟨natCharsAux_ne_nil _ _ (by omega), ?_, ?_, ?_⟩
  · intro hmem
    exact (natChars_ne_nl_sp m ' ' hmem).2 rfl
  · intro hmem
    exact (natChars_ne_nl_sp m '\n' hmem).1 rfl
  · have h3 := natChars_length_le m 3 (by omega) (by omega)
    omega

theorem rowChars_no_nl (c : Canvas) (y : Nat) : '\n' ∉ Canvas.rowChars c y := by
  rw [rowChars_eq_joinSp_rowTokens]
  exact nl_not_mem_joinSp _ fun t ht => (rowTokens_good c y t ht).2.2.1

theorem to_ppm_decompose (c : Canvas) :
    c.to_ppm = ['P', '3'] ++ '\n' ::
      ((natChars c.width ++ ' ' :: natChars c.height) ++ '\n' ::
        (['2', '5', '5'] ++ '\n' ::
          ((List.range c.height).map fun y =>
            wrap_string (Canvas.rowChars c y) 70 ++ ['\n']).flatten)) := by
  rw [Canvas.to_ppm, Canvas.ppmHeader]
  simp

theorem body_lines_le (c : Canvas) (ys : List Nat) :
    ∀ l ∈ splitNl ((ys.map fun y =>
        wrap_string (Canvas.rowChars c y) 70 ++ ['\n']).flatten),
      l.length ≤ 70 := by
  induction ys with
  | nil =>
    intro l hl
    simp [splitNl] at hl
    subst hl
    simp
  | cons y ys ih =>
    rw [List.map_cons, List.flatten_cons, List.append_assoc, List.singleton_append]
    exact wrapFuel_lines_le 70 _ _ _ (by omega) (rowChars_no_nl c y) ih

theorem mid_no_nl (c : Canvas) : '\n' ∉ natChars c.width ++ ' ' :: natChars c.height := by
  intro h
  rw [List.mem_append, List.mem_cons] at h
  rcases h with h | h | h
  · exact (natChars_ne_nl_sp _ _ h).1 rfl
  · exact absurd h.symm (by decide)
  · exact (natChars_ne_nl_sp _ _ h).1 rfl

theorem ppm_lines_le (c : Canvas) (hw : c.width < 2 ^ 64) (hh : c.height < 2 ^ 64) :
    ∀ l ∈ splitNl c.to_ppm, l.length ≤ 70 := by
  rw [to_ppm_decompose,
    splitNl_append_cons ['P', '3'] _ (by decide),
    splitNl_append_cons _ _ (mid_no_nl c),
    splitNl_append_cons ['2', '5', '5'] _ (by decide)]
  intro l hl
  have hpow : (2 : Nat) ^ 64 < 10 ^ 20 := by norm_num
  rcases List.mem_cons.mp hl with h | hl
  · subst h; simp
  rcases List.mem_cons.mp hl with h | hl
  · subst h
    have h1 := natChars_length_le c.width 20 (by omega) (by omega)
    have h2 := natChars_length_le c.height 20 (by omega) (by omega)
    simp only [List.length_append, List.length_cons]
    omega
  rcases List.mem_cons.mp hl with h | hl
  · subst h; simp
  · exact body_lines_le c _ l hl

theorem flatten_last_nl (chunks : List (List Char))
    (hch : ∀ u ∈ chunks, u.getLast? = some '\n') :
    ∀ pre : List Char, pre.getLast? = some '\n' →
      (pre ++ chunks.flatten).getLast? = some '\n' := by
  induction chunks with
  | nil =>
    intro pre hpre
    simpa using hpre
  | cons u us ih =>
    intro pre hpre
    rw [List.flatten_cons, ← List.append_assoc]
    refine ih (fun w hw => hch w (List.mem_cons_of_mem _ hw)) (pre ++ u) ?_
    rw [List.getLast?_append, hch u (by simp)]
    rfl

theorem ppm_last_nl (c : Canvas) : c.to_ppm.getLast? = some '\n' := by
  rw [Canvas.to_ppm]
  refine flatten_last_nl _ ?_ _ ?_
  · intro u hu
    rw [List.mem_map] at hu
    obtain ⟨y, _, rfl⟩ := hu
    exact List.getLast?_concat _
  · rw [show Canvas.ppmHeader c = ('P' :: '3' :: '\n' ::
      (natChars c.width ++ ' ' :: natChars c.height ++ ['\n', '2', '5', '5'])) ++ ['\n'] by
        rw [Canvas.ppmHeader]; simp]
    exact List.getLast?_concat _

/-! ### Claims -/

/-- C1: the claim asks for the standard z-rotation with third row `[0,0,1,0]`
(entry `(2,2) = 1`, z preserved).  The code's `rotation_z` builds its third
row as `Tuple::new(0., 0., 0., 0.)`, so entry `(2,2)` is `0` and the z
coordinate of every tuple it is applied to is zeroed: at `r = 0`
(`cos r = 1`, `sin r = 0`) the point `(0,0,1)` is mapped to z-coordinate `0`,
not `1`.  The same holds for every `c = cos r`, `s = sin r`. -/
theorem C1_rotation_z_zeroes_z :
    (∀ c s : ℚ, (transform.rotation_z c s).get 2 2 = some 0 ∧
      (Matrix4.mult_vec (transform.rotation_z c s) (Tuple.new_point 0 0 1)).z = 0) ∧
    ((transform.rotation_z 1 0).get 2 2 = some 0 ∧
      Matrix4.mult_vec (transform.rotation_z 1 0) (Tuple.new_point 0 0 1) =
        Tuple.new 0 0 0 1) := by
  refine ⟨fun c s => ⟨rfl, ?_⟩, by decide⟩
  show (0:ℚ) * 0 + 0 * 0 + 0 * 1 + 0 * 1 = 0
  norm_num

/-- C2 counterexample: two `Matrix2` values whose only differing component
pair differs by exactly `EPSILON = 1e-5` nevertheless compare EQUAL, because
the matrix `PartialEq` loop only rejects differences strictly GREATER than
`EPSILON`; the claim says they must compare unequal. -/
theorem C2_counterexample_exact_epsilon :
    Matrix2.eqb (Matrix2.from_array ![0, 0, 0, 0])
        (Matrix2.from_array ![EPSILON, 0, 0, 0]) = true ∧
      |(Matrix2.from_array ![0, 0, 0, 0]).data 0 -
          (Matrix2.from_array ![EPSILON, 0, 0, 0]).data 0| = EPSILON := by
  exact ⟨by decide, by decide⟩

/-- C2 (amended): `Tuple` and `Color` equality return `true` iff every
component pair differs in absolute value by strictly less than `EPSILON`
(so a pair differing by exactly `1e-5` compares unequal), while the
`Matrix2`/`Matrix3`/`Matrix4` comparisons return `true` iff every component
pair differs by AT MOST `EPSILON` (so matrices with a pair differing by
exactly `1e-5` compare equal). -/
theorem C2_eq_characterization :
    (∀ t1 t2 : Tuple, Tuple.eqb t1 t2 = true ↔
      (|t1.x - t2.x| < EPSILON ∧ |t1.y - t2.y| < EPSILON ∧
        |t1.z - t2.z| < EPSILON ∧ |t1.w - t2.w| < EPSILON)) ∧
    (∀ c1 c2 : Color, Color.eqb c1 c2 = true ↔
      (|c1.red - c2.red| < EPSILON ∧ |c1.green - c2.green| < EPSILON ∧
        |c1.blue - c2.blue| < EPSILON)) ∧
    (∀ a b : Matrix2, Matrix2.eqb a b = true ↔
      ∀ i, |a.data i - b.data i| ≤ EPSILON) ∧
    (∀ a b : Matrix3, Matrix3.eqb a b = true ↔
      ∀ i, |a.data i - b.data i| ≤ EPSILON) ∧
    (∀ a b : Matrix4, Matrix4.eqb a b = true ↔
      ∀ i, |a.data i - b.data i| ≤ EPSILON) := by
  refine ⟨fun t1 t2 => ?_, fun c1 c2 => ?_, fun a b => ?_, fun a b => ?_, fun a b => ?_⟩
  · simp [Tuple.eqb, and_assoc]
  · simp [Color.eqb, and_assoc]
  · simp [Matrix2.eqb, not_lt]
  · simp [Matrix3.eqb, not_lt]
  · simp [Matrix4.eqb, not_lt]

/-- C3: for each matrix size, `invertible()` holds iff `|det| > EPSILON`;
`inverse()` returns `none` iff `invertible()` is `false`; and a returned
inverse `B` satisfies `B[row][col] = cofactor(col, row) / det` (stated for
`Matrix4` and `Matrix3`, whose sources define `cofactor`; `Matrix2`'s inverse
hard-codes the transposed cofactors `[d, -b, -c, a]`). -/
theorem C3_invertible_inverse_contract :
    (∀ m : Matrix4, m.invertible = true ↔ |m.det| > EPSILON) ∧
    (∀ m : Matrix4, m.inverse = none ↔ m.invertible = false) ∧
    (∀ (m b : Matrix4), m.inverse = some b →
      ∀ row col : Fin 4, b.get row.val col.val = some (m.cofactor col row / m.det)) ∧
    (∀ m : Matrix3, m.invertible = true ↔ |m.det| > EPSILON) ∧
    (∀ m : Matrix3, m.inverse = none ↔ m.invertible = false) ∧
    (∀ (m b : Matrix3), m.inverse = some b →
      ∀ row col : Fin 3, b.get row.val col.val = some (m.cofactor col row / m.det)) ∧
    (∀ m : Matrix2, m.invertible = true ↔ |m.det| > EPSILON) ∧
    (∀ m : Matrix2, m.inverse = none ↔ m.invertible = false) := by
  refine ⟨fun m => by simp [Matrix4.invertible], ?_, ?_, fun m => by simp [Matrix3.invertible],
    ?_, ?_, fun m => by simp [Matrix2.invertible], ?_⟩
  · intro m
    unfold Matrix4.inverse
    by_cases hm : m.invertible = false <;> simp [hm]
  · intro m b h row col
    obtain ⟨hinv, hb⟩ := Matrix4.inverse4_eq h
    subst hb
    have h1 : (row.val * 4 + col.val) % 4 = col.val := by omega
    have h2 : (row.val * 4 + col.val) / 4 = row.val := by omega
    have hr : row.val < 4 := row.isLt
    have hc : col.val < 4 := col.isLt
    simp [Matrix4.get, Matrix4.entry, Matrix4.div_scal, h1, h2, hr, hc]
  · intro m
    unfold Matrix3.inverse
    by_cases hm : m.invertible = false <;> simp [hm]
  · intro m b h row col
    obtain ⟨hinv, hb⟩ := Matrix3.inverse3_eq h
    subst hb
    have h1 : (row.val * 3 + col.val) % 3 = col.val := by omega
    have h2 : (row.val * 3 + col.val) / 3 = row.val := by omega
    have hr : row.val < 3 := row.isLt
    have hc : col.val < 3 := col.isLt
    simp [Matrix3.get, Matrix3.entry, Matrix3.div_scal, h1, h2, hr, hc]
  · intro m
    unfold Matrix2.inverse
    by_cases hm : m.invertible = false <;> simp [hm]

/-- C3 witness: the contract evaluated on the worked-example matrix
(invertible, determinant 532) and, for the `inverse = none` direction, on the
zero matrix. -/
theorem C3_witness :
    exampleM4inv.get 3 2 = some (exampleM4.cofactor 2 3 / exampleM4.det) ∧
      (Matrix4.from_array ![0,0,0,0,0,0,0,0,0,0,0,0,0,0,0,0]).inverse = none := by
  constructor
  · exact C3_invertible_inverse_contract.2.2.1 exampleM4 exampleM4inv (by rfl) 3 2
  · exact (C3_invertible_inverse_contract.2.1
      (Matrix4.from_array ![0,0,0,0,0,0,0,0,0,0,0,0,0,0,0,0])).mpr (by decide)

/-- C4: the determinant/inverse worked example.  `det` (first-row cofactor
expansion with checkerboard signs on `(row + col)` parity, as defined) gives
exactly `532`, `cofactor(2,3)` gives exactly `-160`, and the inverse's entry
at row 3, column 2 is exactly `-160 / 532`. -/
theorem C4_worked_example :
    exampleM4.det = 532 ∧ exampleM4.cofactor 2 3 = -160 ∧
      exampleM4.inverse.isSome = true ∧
      (∀ b, exampleM4.inverse = some b → b.get 3 2 = some (-160 / 532)) := by
  refine ⟨by decide, by decide, by rfl, ?_⟩
  intro b hb
  rw [show exampleM4.inverse = some exampleM4inv from rfl] at hb
  cases hb
  decide

/-- C5: chaining `rotation_x(pi/2)` (whose cosine/sine are exactly `0`/`1`,
passed as the parameters of `rotation_x`), then `scaling(5,5,5)`, then
`translation(10,5,7)` on the point `(1,0,1)` as three successive
matrix-times-tuple products gives the same tuple as the single product
`translation * scaling * rotation` applied to the point, and that tuple
compares equal (under the code's approximate tuple equality) to the point
`(15, 0, 7)`. -/
theorem C5_chained_transforms :
    Matrix4.mult_vec (transform.translation 10 5 7)
        (Matrix4.mult_vec (transform.scaling 5 5 5)
          (Matrix4.mult_vec (transform.rotation_x 0 1) (Tuple.new_point 1 0 1))) =
      Matrix4.mult_vec
        (Matrix4.mult_mat (transform.translation 10 5 7)
          (Matrix4.mult_mat (transform.scaling 5 5 5) (transform.rotation_x 0 1)))
        (Tuple.new_point 1 0 1) ∧
    Tuple.eqb
        (Matrix4.mult_vec (transform.translation 10 5 7)
          (Matrix4.mult_vec (transform.scaling 5 5 5)
            (Matrix4.mult_vec (transform.rotation_x 0 1) (Tuple.new_point 1 0 1))))
        (Tuple.new_point 15 0 7) = true := by
  exact ⟨by decide, by decide⟩

/-- C6: whenever `invertible()` returns `true` and the computed inverse is
unwrapped, the product `M * M.inverse().unwrap()` compares equal to the
identity under the code's approximate matrix equality; for all three matrix
sizes.  (In the exact rational model the product is exactly the identity.) -/
theorem C6_mul_inverse_is_identity :
    (∀ m b : Matrix4, m.invertible = true → m.inverse = some b →
      Matrix4.eqb (m.mult_mat b) Matrix4.identity = true) ∧
    (∀ m b : Matrix3, m.invertible = true → m.inverse = some b →
      Matrix3.eqb (m.mult_mat b) Matrix3.identity = true) ∧
    (∀ m b : Matrix2, m.invertible = true → m.inverse = some b →
      Matrix2.eqb (m.mult_mat b) Matrix2.identity = true) := by
  refine ⟨fun m b _ h => ?_, fun m b _ h => ?_, fun m b _ h => ?_⟩
  · exact Matrix4.eqb4_of_eq (Matrix4.mul_inverse4_exact h)
  · exact Matrix3.eqb3_of_eq (Matrix3.mul_inverse3_exact h)
  · exact Matrix2.eqb2_of_eq (Matrix2.mul_inverse2_exact h)

/-- C6 witness: the contract applied to concrete invertible matrices of all
three sizes (each taken from the source's own test suite). -/
theorem C6_witness :
    Matrix4.eqb (exampleM4.mult_mat exampleM4inv) Matrix4.identity = true ∧
    Matrix3.eqb (exampleM3.mult_mat exampleM3inv) Matrix3.identity = true ∧
    Matrix2.eqb (exampleM2.mult_mat exampleM2inv) Matrix2.identity = true := by
  refine ⟨C6_mul_inverse_is_identity.1 exampleM4 exampleM4inv (by decide) (by rfl),
    C6_mul_inverse_is_identity.2.1 exampleM3 exampleM3inv (by decide) (by rfl),
    C6_mul_inverse_is_identity.2.2 exampleM2 exampleM2inv (by decide) (by rfl)⟩

/-- C7: for every pair of matrices of each size, the transpose of the product
compares equal (under the code's approximate matrix equality) to the product
of the transposes in reverse order; in the exact rational model the two are
exactly equal entrywise. -/
theorem C7_transpose_of_product :
    (∀ a b : Matrix4, Matrix4.eqb ((a.mult_mat b).transpose)
      ((b.transpose).mult_mat (a.transpose)) = true) ∧
    (∀ a b : Matrix3, Matrix3.eqb ((a.mult_mat b).transpose)
      ((b.transpose).mult_mat (a.transpose)) = true) ∧
    (∀ a b : Matrix2, Matrix2.eqb ((a.mult_mat b).transpose)
      ((b.transpose).mult_mat (a.transpose)) = true) := by
  refine ⟨fun a b => Matrix4.eqb4_of_eq ?_, fun a b => Matrix3.eqb3_of_eq ?_,
    fun a b => Matrix2.eqb2_of_eq ?_⟩
  · apply Matrix4.ext4
    intro i
    fin_cases i <;>
      · simp [Matrix4.mult_mat, Matrix4.transpose, Matrix4.entry, fin2_val0, fin2_mk0, fin2_val1, fin2_mk1, fin3_val0, fin3_mk0, fin3_val1, fin3_mk1, fin3_val2, fin3_mk2, fin4_val0, fin4_mk0, fin4_val1, fin4_mk1, fin4_val2, fin4_mk2, fin4_val3, fin4_mk3, fin9_val0, fin9_mk0, fin9_val1, fin9_mk1, fin9_val2, fin9_mk2, fin9_val3, fin9_mk3, fin9_val4, fin9_mk4, fin9_val5, fin9_mk5, fin9_val6, fin9_mk6, fin9_val7, fin9_mk7, fin9_val8, fin9_mk8, fin16_val0, fin16_mk0, fin16_val1, fin16_mk1, fin16_val2, fin16_mk2, fin16_val3, fin16_mk3, fin16_val4, fin16_mk4, fin16_val5, fin16_mk5, fin16_val6, fin16_mk6, fin16_val7, fin16_mk7, fin16_val8, fin16_mk8, fin16_val9, fin16_mk9, fin16_val10, fin16_mk10, fin16_val11, fin16_mk11, fin16_val12, fin16_mk12, fin16_val13, fin16_mk13, fin16_val14, fin16_mk14, fin16_val15, fin16_mk15]
        try ring
  · apply Matrix3.ext3
    intro i
    fin_cases i <;>
      · simp [Matrix3.mult_mat, Matrix3.transpose, Matrix3.entry, fin2_val0, fin2_mk0, fin2_val1, fin2_mk1, fin3_val0, fin3_mk0, fin3_val1, fin3_mk1, fin3_val2, fin3_mk2, fin4_val0, fin4_mk0, fin4_val1, fin4_mk1, fin4_val2, fin4_mk2, fin4_val3, fin4_mk3, fin9_val0, fin9_mk0, fin9_val1, fin9_mk1, fin9_val2, fin9_mk2, fin9_val3, fin9_mk3, fin9_val4, fin9_mk4, fin9_val5, fin9_mk5, fin9_val6, fin9_mk6, fin9_val7, fin9_mk7, fin9_val8, fin9_mk8, fin16_val0, fin16_mk0, fin16_val1, fin16_mk1, fin16_val2, fin16_mk2, fin16_val3, fin16_mk3, fin16_val4, fin16_mk4, fin16_val5, fin16_mk5, fin16_val6, fin16_mk6, fin16_val7, fin16_mk7, fin16_val8, fin16_mk8, fin16_val9, fin16_mk9, fin16_val10, fin16_mk10, fin16_val11, fin16_mk11, fin16_val12, fin16_mk12, fin16_val13, fin16_mk13, fin16_val14, fin16_mk14, fin16_val15, fin16_mk15]
        try ring
  · apply Matrix2.ext2
    intro i
    fin_cases i <;>
      · simp [Matrix2.mult_mat, Matrix2.transpose, Matrix2.entry, fin2_val0, fin2_mk0, fin2_val1, fin2_mk1, fin3_val0, fin3_mk0, fin3_val1, fin3_mk1, fin3_val2, fin3_mk2, fin4_val0, fin4_mk0, fin4_val1, fin4_mk1, fin4_val2, fin4_mk2, fin4_val3, fin4_mk3, fin9_val0, fin9_mk0, fin9_val1, fin9_mk1, fin9_val2, fin9_mk2, fin9_val3, fin9_mk3, fin9_val4, fin9_mk4, fin9_val5, fin9_mk5, fin9_val6, fin9_mk6, fin9_val7, fin9_mk7, fin9_val8, fin9_mk8, fin16_val0, fin16_mk0, fin16_val1, fin16_mk1, fin16_val2, fin16_mk2, fin16_val3, fin16_mk3, fin16_val4, fin16_mk4, fin16_val5, fin16_mk5, fin16_val6, fin16_mk6, fin16_val7, fin16_mk7, fin16_val8, fin16_mk8, fin16_val9, fin16_mk9, fin16_val10, fin16_mk10, fin16_val11, fin16_mk11, fin16_val12, fin16_mk12, fin16_val13, fin16_mk13, fin16_val14, fin16_mk14, fin16_val15, fin16_mk15]
        try ring

/-- C8: serializing a freshly created 5-by-3 canvas (all pixels black; each
channel is `round(clamp(component, 0, 1) * 255) = 0`) yields exactly the
header lines `P3`, `5 3`, `255` followed by three identical all-zero pixel
rows, each carrying five `0 0 0` triplets. -/
theorem C8_blank_5x3_ppm :
    linesOf ((Canvas.new 5 3).to_ppm) =
      ["P3".toList, "5 3".toList, "255".toList,
       "0 0 0 0 0 0 0 0 0 0 0 0 0 0 0".toList,
       "0 0 0 0 0 0 0 0 0 0 0 0 0 0 0".toList,
       "0 0 0 0 0 0 0 0 0 0 0 0 0 0 0".toList] := by
  decide

/-- C9: for every canvas whose dimensions fit in `usize` (64 bits), every
line of the serialized output is at most 70 characters long; each row's
wrapped text, after mapping the inserted newlines back to the spaces they
replaced, is exactly the unwrapped row text (so wrapping only happens at
space boundaries and no triplet is truncated or dropped); and the output
ends with a newline character after the last row. -/
theorem C9_wrap_and_terminator :
    ∀ c : Canvas, c.width < 2 ^ 64 → c.height < 2 ^ 64 →
      (∀ l ∈ splitNl c.to_ppm, l.length ≤ 70) ∧
      (∀ y, y < c.height →
        unwrapNl (wrap_string (Canvas.rowChars c y) 70) = Canvas.rowChars c y) ∧
      c.to_ppm.getLast? = some '\n' := by
  intro c hw hh
  refine ⟨ppm_lines_le c hw hh, ?_, ppm_last_nl c⟩
  intro y _
  rw [wrap_string, rowChars_eq_joinSp_rowTokens]
  exact wrapFuel_unwrap 70 (Canvas.rowTokens c y).length (Canvas.rowTokens c y)
    (le_refl _) (rowTokens_good c y) _
    (by rw [← rowChars_eq_joinSp_rowTokens]; omega)

/-- C9 witness: the wrapping contract evaluated on a concrete 4-by-2
canvas. -/
theorem C9_witness :
    (∀ l ∈ splitNl (Canvas.new 4 2).to_ppm, l.length ≤ 70) ∧
    (∀ y, y < (Canvas.new 4 2).height →
      unwrapNl (wrap_string (Canvas.rowChars (Canvas.new 4 2) y) 70) =
        Canvas.rowChars (Canvas.new 4 2) y) ∧
    (Canvas.new 4 2).to_ppm.getLast? = some '\n' :=
  C9_wrap_and_terminator (Canvas.new 4 2) (by norm_num [Canvas.new]) (by norm_num [Canvas.new])

/-- C10: a successful `set_pixel_at(x, y, color)` changes neither the
dimensions nor any pixel other than the one at `(x, y)`; a call that
returns the out-of-bounds error leaves the entire canvas unchanged. -/
theorem C10_set_pixel_at_frame :
    ∀ (c : Canvas) (x y : Nat) (color : Color),
      ((c.set_pixel_at x y color).2 = none →
        (c.set_pixel_at x y color).1.width = c.width ∧
        (c.set_pixel_at x y color).1.height = c.height ∧
        ∀ x' y', ¬(x' = x ∧ y' = y) →
          (c.set_pixel_at x y color).1.get_color_at x' y' = c.get_color_at x' y') ∧
      (∀ e, (c.set_pixel_at x y color).2 = some e →
        (c.set_pixel_at x y color).1 = c) := by
  intro c x y color
  by_cases hb : x ≥ c.width ∨ y ≥ c.height
  · rw [Canvas.set_pixel_at, if_pos hb]
    exact ⟨fun h => by simp at h, fun e _ => rfl⟩
  · rw [Canvas.set_pixel_at, if_neg hb]
    refine ⟨fun _ => ⟨rfl, rfl, ?_⟩, fun e he => by simp at he⟩
    intro x' y' hne
    push_neg at hb
    by_cases hb' : x' ≥ c.width ∨ y' ≥ c.height
    · simp [Canvas.get_color_at, hb']
    · push_neg at hb'
      have hwpos : 0 < c.width := by omega
      have hidx : y' * c.width + x' ≠ y * c.width + x := by
        intro he
        have hx' : (y' * c.width + x') % c.width = x' := by
          rw [Nat.mul_comm, Nat.mul_add_mod]
          exact Nat.mod_eq_of_lt hb'.1
        have hx2 : (y * c.width + x) % c.width = x := by
          rw [Nat.mul_comm, Nat.mul_add_mod]
          exact Nat.mod_eq_of_lt hb.1
        have hxx : x' = x := by rw [← hx', ← hx2, he]
        have hyy : y' = y := by
          rw [hxx] at he
          have hy2 : y' * c.width = y * c.width := by omega
          exact Nat.eq_of_mul_eq_mul_right hwpos hy2
        exact hne ⟨hxx, hyy⟩
      rw [Canvas.get_color_at, Canvas.get_color_at]
      have hb2 : ¬(x' ≥ c.width ∨ y' ≥ c.height) := by omega
      simp only [dif_neg hb2]
      simp only [Option.some.injEq]
      rw [List.get_eq_getElem, List.get_eq_getElem]
      simp only [Fin.val_mk]
      exact List.getElem_set_ne (Ne.symm hidx) _

/-- C10 witness: on a concrete 2-by-2 canvas, a successful write at `(0,0)`
leaves the pixel at `(1,0)` unchanged, and an out-of-bounds write at
`(5,0)` leaves the canvas unchanged. -/
theorem C10_witness :
    ((Canvas.new 2 2).set_pixel_at 0 0 (Color.new 1 0 0)).1.get_color_at 1 0 =
      (Canvas.new 2 2).get_color_at 1 0 ∧
    ((Canvas.new 2 2).set_pixel_at 5 0 (Color.new 1 0 0)).1 = Canvas.new 2 2 := by
  constructor
  · exact ((C10_set_pixel_at_frame (Canvas.new 2 2) 0 0 (Color.new 1 0 0)).1
      (by decide)).2.2 1 0 (by decide)
  · exact (C10_set_pixel_at_frame (Canvas.new 2 2) 5 0 (Color.new 1 0 0)).2
      (CanvasError.OutOfBounds 5 0 2 2) (by decide)
